import Mathlib

/-!
# Literal instantiation with allocation-site feedback (`src/runtime/runtime-literals.cc`)

A shallow embedding of the literal runtime of V8: the boilerplate builders
(`ObjectBoilerplate::Create`, `ArrayBoilerplate::Create`, `InnerCreateBoilerplate`),
the instantiation driver (`CreateLiteral`) and the three runtime entry points.

* The managed heap is a list of heap objects; an address is an index into it and
  allocation appends.  Allocation by the factory always succeeds: the builders return
  a `Handle`, not a `MaybeHandle`.
* Every function of the source is a state-passing function returning a `Res`.  The
  closure is represented by its feedback vector, which the state holds next to the
  heap.
* The state also carries a log of the calls that the code makes, in the order in
  which it makes them: reads and writes of the feedback vector, entries into the
  builders, lookups in the shape cache, slow-to-fast migrations, deep walks, creations
  of an allocation site, deep copies, and calls of the regular-expression engine.
* Constants and collaborators declared outside `runtime-literals.cc` are parameters
  (`Env`), or are modelled from the specification where the heap they act on has to be
  concrete.  `DCHECK`s are modelled as fatal in a debug build (`Env.debug`) and as
  absent in a release build.
* `InnerCreateBoilerplate` recurses through the heap; the embedding bounds the nesting
  depth it follows by a natural number, and the theorems show that the bound is never
  reached on a description that is a tree of at most that depth.
-/

namespace v8
namespace internal

/-! ## Data model -/

/-- Address of a heap object: its index in the heap. -/
abbrev Addr := Nat

/-- Tagged values (`Object*`): small integers, immutable constants, and references
to heap objects. -/
inductive Val where
  | smi (n : Int)
  | uninitialized
  | str (s : String)
  | number (bits : Nat)
  | ref (a : Addr)
  deriving DecidableEq

/-- Element kinds that a literal description can record. -/
inductive ElementsKind where
  | FAST_SMI_ELEMENTS
  | FAST_HOLEY_SMI_ELEMENTS
  | FAST_ELEMENTS
  | FAST_HOLEY_ELEMENTS
  | FAST_DOUBLE_ELEMENTS
  | FAST_HOLEY_DOUBLE_ELEMENTS
  | DICTIONARY_ELEMENTS
  deriving DecidableEq

/-- Modelled from the spec: the element-kind tag `packed-double` (and its holey
variant); `IsFastDoubleElementsKind` is declared in `src/elements-kind.h`. -/
def IsFastDoubleElementsKind : ElementsKind → Bool
  | .FAST_DOUBLE_ELEMENTS => true
  | .FAST_HOLEY_DOUBLE_ELEMENTS => true
  | _ => false

/-- Modelled from the spec: the element-kind tags `packed-small-int` and
`packed-object` (and their holey variants); `IsFastSmiOrObjectElementsKind` is
declared in `src/elements-kind.h`. -/
def IsFastSmiOrObjectElementsKind : ElementsKind → Bool
  | .FAST_SMI_ELEMENTS => true
  | .FAST_HOLEY_SMI_ELEMENTS => true
  | .FAST_ELEMENTS => true
  | .FAST_HOLEY_ELEMENTS => true
  | _ => false

inductive PretenureFlag where
  | NOT_TENURED
  | TENURED
  deriving DecidableEq

/-- Object shape.  Only what the literal runtime inspects is kept: whether the shape
is a dictionary shape, and the prototype (`none` is the null prototype). -/
structure Map where
  is_dictionary_map : Bool
  prototype : Option Addr
  unused_property_fields : Nat
  deriving DecidableEq

/-- Modelled from the spec: the fixed null-prototype dictionary shape of the native
context (`native_context->slow_object_with_null_prototype_map()`). -/
def slow_object_with_null_prototype_map : Map :=
  { is_dictionary_map := true, prototype := none, unused_property_fields := 0 }

/-- Heap objects.
* `FixedArray cow values`: `cow` tells whether its map is `fixed_cow_array_map`;
  a nested-literal marker (compile-time value) is a two-slot `FixedArray`.
* `BoilerplateDescription`: declared backing-store size and the ordered
  (key, value) pairs.
* `ConstantElementsPair`: element kind and the address of the backing storage.
* `JSObject`: shape, named properties, indexed elements, whether the elements were
  normalized, tenure, and the dictionary capacity it was allocated with (if slow).
* `JSArray`: address of the backing storage, element kind, length, tenure. -/
inductive HeapObject where
  | FixedArray (cow : Bool) (values : List Val)
  | FixedDoubleArray (values : List Nat)
  | BoilerplateDescription (backing_store_size : Nat) (entries : List (Val × Val))
  | ConstantElementsPair (elements_kind : ElementsKind) (constant_values : Addr)
  | JSObject (map : Map) (properties : List (Val × Val)) (elements : List (Nat × Val))
      (normalized_elements : Bool) (pretenure : PretenureFlag) (capacity : Option Nat)
  | JSArray (elements : Addr) (elements_kind : ElementsKind) (length : Nat)
      (pretenure : PretenureFlag)
  | AllocationSite (transition_info : Val)
  | JSRegExp (pattern : String) (flags : Int)
  deriving DecidableEq

/-- The visitor passed to `JSObject::DeepWalk`. -/
inductive WalkContext where
  | DeprecationUpdateContext
  | AllocationSiteCreationContext
  deriving DecidableEq

inductive DeepCopyHints where
  | kNoHints
  | kObjectIsShallow
  deriving DecidableEq

/-- Calls to collaborators, as recorded in the log. -/
inductive Event where
  | FeedbackVector_Get (slot : Int)
  | FeedbackVector_Set (slot : Int) (value : Val)
  | ObjectBoilerplate_Create (description : Addr) (flags : Int)
  | ArrayBoilerplate_Create (description : Addr) (flags : Int)
  | ObjectLiteralMapFromCache (flags : Int) (number_of_properties : Nat)
  | MigrateSlowToFast (boilerplate : Addr)
  | DeepWalk (boilerplate : Addr) (context : WalkContext)
  | NewAllocationSite (site : Addr)
  | DeepCopy (boilerplate : Addr) (site : Addr) (enable_mementos : Bool)
      (hints : DeepCopyHints)
  | JSRegExp_New (pattern : String) (flags : Int)
  | JSRegExp_Copy (boilerplate : Addr)
  deriving DecidableEq

/-- Machine state: the heap, the feedback vector of the closure being executed
(`closure->feedback_vector()`, one cell per literal), whether that vector lies in
new space, and the log of collaborator calls (oldest first). -/
structure State where
  heap : List HeapObject
  vector : List Val
  vector_in_new_space : Bool
  log : List Event
  deriving DecidableEq

/-- Outcome of running a function of the source.
* `ok a s`: normal return.
* `exception s`: an exception is pending (empty `MaybeHandle`).
* `fatal s`: a `CHECK` (or, in a debug build, a `DCHECK`) failed, or the feedback
  slot store rejected a slot index (`OutOfRange`).
* `undefined s`: the code leaves the behaviour undefined (unchecked cast of an
  object of another type, use of an empty handle).
* `outOfFuel`: the recursion bound of the embedding was reached. -/
inductive Res (α : Type) where
  | ok (a : α) (s : State)
  | exception (s : State)
  | fatal (s : State)
  | undefined (s : State)
  | outOfFuel
  deriving DecidableEq

def Res.bind {α β : Type} (r : Res α) (f : α → State → Res β) : Res β :=
  match r with
  | .ok a s => f a s
  | .exception s => .exception s
  | .fatal s => .fatal s
  | .undefined s => .undefined s
  | .outOfFuel => .outOfFuel

/-- Constants, build flags and collaborators that are declared outside
`runtime-literals.cc` and taken as parameters. -/
structure Env where
  /-- Bit mask `ObjectLiteral::kFastElements` (declared in `src/ast/ast.h`) -/
  kFastElements : Int
  /-- Bit mask `ObjectLiteral::kHasNullPrototype` -/
  kHasNullPrototype : Int
  /-- Bit mask `ObjectLiteral::kShallowProperties`, which a `STATIC_ASSERT` of
  `CreateLiteral` equates with `ArrayLiteral::kShallowElements` -/
  kShallowProperties : Int
  /-- Bit mask `ObjectLiteral::kDisableMementos`, which a `STATIC_ASSERT` of
  `CreateLiteral` equates with `ArrayLiteral::kDisableMementos` -/
  kDisableMementos : Int
  /-- Kind flag `CompileTimeValue::kArrayLiteralFlag` of a nested array literal -/
  kArrayLiteralFlag : Int
  /-- Runtime flag `FLAG_track_double_fields` -/
  FLAG_track_double_fields : Bool
  /-- Runtime flag `FLAG_unbox_double_fields` -/
  FLAG_unbox_double_fields : Bool
  /-- Whether `DEBUG` is defined, that is whether `DCHECK`s are compiled in. -/
  debug : Bool
  /-- Collaborator `FeedbackVector::ToSlot`: the slot that a literal index denotes -/
  ToSlot : Int → Int
  /-- Collaborator `Object::ToArrayIndex`: the array index that a key denotes, if any -/
  ToArrayIndex : Val → Option Nat
  /-- Collaborator `String::AsArrayIndex`, used by a `DCHECK` only -/
  AsArrayIndex : Val → Option Nat
  /-- Collaborator `Factory::ObjectLiteralMapFromCache`, the shape cache keyed by
  property count -/
  ObjectLiteralMapFromCache : Nat → Map
  /-- The shape chosen by `JSObject::MigrateSlowToFast` -/
  MigrateSlowToFast : Map → Nat → Map
  /-- Collaborator `JSObject::DeepWalk`, as a function of the heap; `none` when it
  leaves an exception pending -/
  DeepWalk : WalkContext → List HeapObject → Addr → Option (List HeapObject)
  /-- Collaborator `JSObject::DeepCopy` with an `AllocationSiteUsageContext` (heap,
  boilerplate, site, whether mementos are enabled, hints); the copy and the new heap,
  or `none` when the returned `MaybeHandle` is empty -/
  DeepCopy : List HeapObject → Addr → Addr → Bool → DeepCopyHints →
    Option (Addr × List HeapObject)
  /-- Whether the regular-expression engine accepts the pattern and flags -/
  RegExpCompiles : String → Int → Bool

/-! ## Heap and feedback-vector primitives -/

def State.record (s : State) (e : Event) : State :=
  { s with log := s.log ++ [e] }

/-- Allocation: the new object is placed at the end of the heap. -/
def State.alloc (s : State) (o : HeapObject) : Addr × State :=
  (s.heap.length, { s with heap := s.heap ++ [o] })

def State.store (s : State) (a : Addr) (o : HeapObject) : State :=
  { s with heap := s.heap.set a o }

/-- Modelled from the spec: the decoder's test for a nested-literal marker
(`Object::IsFixedArray`, declared outside `runtime-literals.cc`): the value refers to
a `FixedArray`. -/
def IsFixedArray (s : State) : Val → Bool
  | .ref a =>
    match s.heap[a]? with
    | some (.FixedArray _ _) => true
    | _ => false
  | _ => false

/-- Modelled from the spec: the test for a slot value that is a small integer, the
sentinel or the marker (`Object::IsSmi`, declared outside `runtime-literals.cc`). -/
def Val.IsSmi : Val → Bool
  | .smi _ => true
  | _ => false

/-- Modelled from the spec: a nested-literal marker carries `{elements,
literalKindFlag}`; `CompileTimeValue::GetElements` (declared in
`src/ast/compile-time-value.h`) returns the elements, held in slot 1. -/
def CompileTimeValue.GetElements (s : State) (compile_time_value : Addr) : Option Addr :=
  match s.heap[compile_time_value]? with
  | some (.FixedArray _ values) =>
    match values[(1 : Nat)]? with
    | some (.ref elements) => some elements
    | _ => none
  | _ => none

/-- Modelled from the spec: a nested-literal marker carries `{elements,
literalKindFlag}`; `CompileTimeValue::GetLiteralTypeFlags` (declared in
`src/ast/compile-time-value.h`) returns the flag, held in slot 0 as a Smi. -/
def CompileTimeValue.GetLiteralTypeFlags (s : State) (compile_time_value : Addr) :
    Option Int :=
  match s.heap[compile_time_value]? with
  | some (.FixedArray _ values) =>
    match values[(0 : Nat)]? with
    | some (.smi flags) => some flags
    | _ => none
  | _ => none

/-- Insertion into an ordered dictionary: an existing entry for the key is
overwritten in place, a new key is appended. -/
def storeEntry {κ : Type} [DecidableEq κ] (k : κ) (v : Val) :
    List (κ × Val) → List (κ × Val)
  | [] => [(k, v)]
  | (k', v') :: rest =>
    if k' = k then (k, v) :: rest else (k', v') :: storeEntry k v rest

/-- Modelled from the spec: "install as an indexed element"
(`JSObject::SetOwnElementIgnoreAttributes`, defined in `src/objects.cc`). -/
def JSObject.SetOwnElementIgnoreAttributes (s : State) (object : Addr) (index : Nat)
    (value : Val) : State :=
  match s.heap[object]? with
  | some (.JSObject map properties elements normalized pretenure capacity) =>
    s.store object
      (.JSObject map properties (storeEntry index value elements) normalized pretenure
        capacity)
  | _ => s

/-- Modelled from the spec: "install as a named property"
(`JSObject::SetOwnPropertyIgnoreAttributes`, defined in `src/objects.cc`). -/
def JSObject.SetOwnPropertyIgnoreAttributes (s : State) (object : Addr) (name : Val)
    (value : Val) : State :=
  match s.heap[object]? with
  | some (.JSObject map properties elements normalized pretenure capacity) =>
    s.store object
      (.JSObject map (storeEntry name value properties) elements normalized pretenure
        capacity)
  | _ => s

/-- Modelled from the spec: "the resulting object's element storage is normalized to
dictionary form" (`JSObject::NormalizeElements`, defined in `src/objects.cc`). -/
def JSObject.NormalizeElements (s : State) (object : Addr) : State :=
  match s.heap[object]? with
  | some (.JSObject map properties elements _ pretenure capacity) =>
    s.store object (.JSObject map properties elements true pretenure capacity)
  | _ => s

/-- Modelled from the spec: "opportunistically migrate back to fast layout"
(`JSObject::MigrateSlowToFast`, defined in `src/objects.cc`): the object takes the
shape chosen by the collaborator from its current shape. -/
def JSObject.MigrateSlowToFast (c : Env) (s : State) (object : Addr) : State :=
  let s := s.record (.MigrateSlowToFast object)
  match s.heap[object]? with
  | some (.JSObject map properties elements normalized pretenure capacity) =>
    s.store object
      (.JSObject (c.MigrateSlowToFast map map.unused_property_fields) properties elements
        normalized pretenure capacity)
  | _ => s

/-- Modelled from the spec: the heap allocator's `allocate(shapeOrKind, sizeHint,
tenureHint)` (`Factory::NewSlowJSObjectFromMap(map, capacity, pretenure)`): an empty
dictionary-mode object. -/
def Factory.NewSlowJSObjectFromMap (s : State) (map : Map) (capacity : Nat)
    (pretenure : PretenureFlag) : Addr × State :=
  s.alloc (.JSObject map [] [] false pretenure (some capacity))

/-- Modelled from the spec: the heap allocator's `allocate(shapeOrKind, sizeHint,
tenureHint)` (`Factory::NewJSObjectFromMap(map, pretenure)`): an empty object. -/
def Factory.NewJSObjectFromMap (s : State) (map : Map) (pretenure : PretenureFlag) :
    Addr × State :=
  s.alloc (.JSObject map [] [] false pretenure none)

/-- Modelled from the spec: the heap allocator's `allocate(shapeOrKind, sizeHint,
tenureHint)` (`Factory::NewJSArrayWithElements(elements, kind, length, pretenure)`):
an array over the given backing storage. -/
def Factory.NewJSArrayWithElements (s : State) (elements : Addr) (kind : ElementsKind)
    (length : Nat) (pretenure : PretenureFlag) : Addr × State :=
  s.alloc (.JSArray elements kind length pretenure)

/-- Modelled from the spec: the length of a backing sequence
(`FixedArrayBase::length`). -/
def FixedArrayBase.length (s : State) (a : Addr) : Nat :=
  match s.heap[a]? with
  | some (.FixedArray _ values) => values.length
  | some (.FixedDoubleArray values) => values.length
  | _ => 0

/-- Modelled from the spec: the write of one cell of a backing sequence
(`FixedArray::set(i, value)`). -/
def FixedArray.set (s : State) (a : Addr) (i : Nat) (value : Val) : State :=
  match s.heap[a]? with
  | some (.FixedArray cow values) => s.store a (.FixedArray cow (values.set i value))
  | _ => s

/-- The tenure decision of both builders:
`isolate->heap()->InNewSpace(*vector) ? NOT_TENURED : TENURED`. -/
def pretenureFor (s : State) : PretenureFlag :=
  if s.vector_in_new_space then .NOT_TENURED else .TENURED

/-! ## `runtime-literals.cc` -/

/-- The function `IsUninitializedLiteralSite`: the slot holds the sentinel
`Smi::kZero`. -/
def IsUninitializedLiteralSite (literal_site : Val) : Bool :=
  literal_site == .smi 0

/-- The function `HasBoilerplate`: the slot does not hold a Smi. -/
def HasBoilerplate (literal_site : Val) : Bool :=
  !literal_site.IsSmi

/-- Modelled from the spec: the Feedback Slot Store's `get(slot)`
(`FeedbackVector::Get`, declared in `src/feedback-vector.h`), which validates nothing
beyond bounds-checking the slot index against the declared length of the vector, and
fails with `OutOfRange`, a fatal invariant violation, when the slot lies outside the
vector; nothing is read then. -/
def FeedbackVector.Get (s : State) (slot : Int) : Res Val :=
  match (if 0 ≤ slot then s.vector[slot.toNat]? else none) with
  | some value => .ok value (s.record (.FeedbackVector_Get slot))
  | none => .fatal s

/-- Modelled from the spec: the Feedback Slot Store's `set(slot, value)`
(`FeedbackVector::Set`, declared in `src/feedback-vector.h`).  In
`runtime-literals.cc` every `Set` follows a `Get` of the same slot that returned, so
the bounds check of the store has passed where `Set` is reached. -/
def FeedbackVector.Set (s : State) (slot : Int) (value : Val) : State :=
  { s with vector := s.vector.set slot.toNat value,
           log := s.log ++ [.FeedbackVector_Set slot value] }

/-- The function `PreInitializeLiteralSite`: `vector->Set(slot, Smi::FromInt(1))`. -/
def PreInitializeLiteralSite (s : State) (slot : Int) : State :=
  FeedbackVector.Set s slot (.smi 1)

/-- The address a value refers to, for a value passed where a heap object is
expected. -/
def Val.addr : Val → Addr
  | .ref a => a
  | _ => 0

/-- The `for` loop of `ObjectBoilerplate::Create` that adds the constant properties:
`n` iterations remain, starting at `index`. -/
def ObjectBoilerplate.Create.loop (c : Env) (inner : State → Addr → Res Val)
    (boilerplate boilerplate_description : Addr) : Nat → Nat → State → Res Unit
  | 0, _, s => .ok () s
  | n + 1, index, s =>
    match s.heap[boilerplate_description]? with
    | some (.BoilerplateDescription _ entries) =>
      match entries[index]? with
      | some (key, value) =>
        (if IsFixedArray s value then inner s value.addr else .ok value s).bind
          fun value s =>
            match c.ToArrayIndex key with
            | some element_index =>
              let value := if value = .uninitialized then .smi 0 else value
              ObjectBoilerplate.Create.loop c inner boilerplate boilerplate_description
                n (index + 1)
                (JSObject.SetOwnElementIgnoreAttributes s boilerplate element_index value)
            | none =>
              if c.debug && (c.AsArrayIndex key).isSome then .fatal s
              else
                ObjectBoilerplate.Create.loop c inner boilerplate boilerplate_description
                  n (index + 1)
                  (JSObject.SetOwnPropertyIgnoreAttributes s boilerplate key value)
      | none => .undefined s
    | _ => .undefined s

/-- The function `ObjectBoilerplate::Create`.  `inner` is the forward-declared
`InnerCreateBoilerplate`. -/
def ObjectBoilerplate.Create (c : Env) (inner : State → Addr → Res Val) (s : State)
    (description : Addr) (flags : Int) : Res Addr :=
  let s := s.record (.ObjectBoilerplate_Create description flags)
  match s.heap[description]? with
  | some (.BoilerplateDescription backing_store_size entries) =>
    let use_fast_elements := Int.land flags c.kFastElements != 0
    let has_null_prototype := Int.land flags c.kHasNullPrototype != 0
    let number_of_properties := backing_store_size
    let map :=
      if has_null_prototype then slow_object_with_null_prototype_map
      else c.ObjectLiteralMapFromCache number_of_properties
    let s :=
      if has_null_prototype then s
      else s.record (.ObjectLiteralMapFromCache flags number_of_properties)
    let pretenure_flag := pretenureFor s
    let (boilerplate, s) :=
      if map.is_dictionary_map then
        Factory.NewSlowJSObjectFromMap s map number_of_properties pretenure_flag
      else Factory.NewJSObjectFromMap s map pretenure_flag
    let s := if !use_fast_elements then JSObject.NormalizeElements s boilerplate else s
    let length := entries.length
    (ObjectBoilerplate.Create.loop c inner boilerplate description length 0 s).bind
      fun _ s =>
        let s :=
          if map.is_dictionary_map && !has_null_prototype then
            JSObject.MigrateSlowToFast c s boilerplate
          else s
        .ok boilerplate s
  | _ => .undefined s

/-- The `FOR_WITH_HANDLE_SCOPE` loop of `ArrayBoilerplate::Create` over the original
backing storage: `n` iterations remain, starting at `i`. -/
def ArrayBoilerplate.Create.loop (inner : State → Addr → Res Val)
    (fixed_array_values fixed_array_values_copy : Addr) : Nat → Nat → State → Res Unit
  | 0, _, s => .ok () s
  | n + 1, i, s =>
    match s.heap[fixed_array_values]? with
    | some (.FixedArray _ values) =>
      match values[i]? with
      | some value =>
        if IsFixedArray s value then
          (inner s value.addr).bind fun result s =>
            ArrayBoilerplate.Create.loop inner fixed_array_values fixed_array_values_copy
              n (i + 1) (FixedArray.set s fixed_array_values_copy i result)
        else
          ArrayBoilerplate.Create.loop inner fixed_array_values fixed_array_values_copy
            n (i + 1) s
      | none => .undefined s
    | _ => .undefined s

/-- The tail of `ArrayBoilerplate::Create`: the pretenure decision and
`NewJSArrayWithElements`. -/
def ArrayBoilerplate.Create.finish (s : State) (copied_elements_values : Addr)
    (constant_elements_kind : ElementsKind) : Res Addr :=
  let pretenure_flag := pretenureFor s
  let (array, s) :=
    Factory.NewJSArrayWithElements s copied_elements_values constant_elements_kind
      (FixedArrayBase.length s copied_elements_values) pretenure_flag
  .ok array s

/-- The function `ArrayBoilerplate::Create`.  `inner` is the forward-declared
`InnerCreateBoilerplate`.  `Factory::CopyFixedDoubleArray` and
`Factory::CopyFixedArray` are modelled from the spec ("physically copies the backing
storage"): a new array with the same map and contents is allocated. -/
def ArrayBoilerplate.Create (c : Env) (inner : State → Addr → Res Val) (s : State)
    (description : Addr) (flags : Int) : Res Addr :=
  let s := s.record (.ArrayBoilerplate_Create description flags)
  match s.heap[description]? with
  | some (.ConstantElementsPair constant_elements_kind constant_elements_values) =>
    if IsFastDoubleElementsKind constant_elements_kind then
      match s.heap[constant_elements_values]? with
      | some (.FixedDoubleArray values) =>
        let (copied_elements_values, s) := s.alloc (.FixedDoubleArray values)
        ArrayBoilerplate.Create.finish s copied_elements_values constant_elements_kind
      | _ => .undefined s
    else if c.debug && !IsFastSmiOrObjectElementsKind constant_elements_kind then
      .fatal s
    else
      match s.heap[constant_elements_values]? with
      | some (.FixedArray is_cow values) =>
        if is_cow then
          if c.debug && values.any (IsFixedArray s) then .fatal s
          else
            ArrayBoilerplate.Create.finish s constant_elements_values
              constant_elements_kind
        else
          let (fixed_array_values_copy, s) := s.alloc (.FixedArray false values)
          (ArrayBoilerplate.Create.loop inner constant_elements_values
              fixed_array_values_copy values.length 0 s).bind
            fun _ s =>
              ArrayBoilerplate.Create.finish s fixed_array_values_copy
                constant_elements_kind
      | _ => .undefined s
  | _ => .undefined s

/-- The function `InnerCreateBoilerplate`.  The first argument bounds the nesting depth that the
embedding follows. -/
def InnerCreateBoilerplate (c : Env) : Nat → State → Addr → Res Val
  | 0, _, _ => .outOfFuel
  | fuel + 1, s, compile_time_value =>
    match CompileTimeValue.GetElements s compile_time_value,
        CompileTimeValue.GetLiteralTypeFlags s compile_time_value with
    | some elements, some flags =>
      if flags = c.kArrayLiteralFlag then
        (ArrayBoilerplate.Create c (InnerCreateBoilerplate c fuel) s elements flags).bind
          fun array s => .ok (.ref array) s
      else
        (ObjectBoilerplate.Create c (InnerCreateBoilerplate c fuel) s elements flags).bind
          fun object s => .ok (.ref object) s
    | _, _ => .undefined s

/-- The `Boilerplate` template parameter of `CreateLiteral`. -/
inductive Boilerplate where
  | ObjectBoilerplate
  | ArrayBoilerplate
  deriving DecidableEq

/-- The call `Boilerplate::Create(isolate, vector, description, flags)` of
`CreateLiteral`. -/
def Boilerplate.Create (B : Boilerplate) (c : Env) (inner : State → Addr → Res Val)
    (s : State) (description : Addr) (flags : Int) : Res Addr :=
  match B with
  | .ObjectBoilerplate => ObjectBoilerplate.Create c inner s description flags
  | .ArrayBoilerplate => ArrayBoilerplate.Create c inner s description flags

/-- Modelled from the spec: "creates an Allocation Site"
(`AllocationSiteCreationContext::EnterNewScope`, defined in
`src/allocation-site-scopes.cc`): a new site that wraps nothing yet. -/
def AllocationSiteCreationContext.EnterNewScope (s : State) : Addr × State :=
  let (site, s) := s.alloc (.AllocationSite (.smi 0))
  (site, s.record (.NewAllocationSite site))

/-- Modelled from the spec: "an Allocation Site wrapping the boilerplate"
(`AllocationSiteCreationContext::ExitScope`, defined in
`src/allocation-site-scopes.cc`): `site->set_transition_info(*boilerplate)`. -/
def AllocationSiteCreationContext.ExitScope (s : State) (site boilerplate : Addr) :
    State :=
  s.store site (.AllocationSite (.ref boilerplate))

/-- The call `JSObject::DeepWalk(boilerplate, &context)` wrapped in
`RETURN_ON_EXCEPTION`. -/
def JSObject.DeepWalk (c : Env) (context : WalkContext) (s : State)
    (boilerplate : Addr) : Res Unit :=
  let s := s.record (.DeepWalk boilerplate context)
  match c.DeepWalk context s.heap boilerplate with
  | some heap => .ok () { s with heap := heap }
  | none => .exception s

/-- The copy `JSObject::DeepCopy(boilerplate, &usage_context, copy_hints)`, returned
as a `MaybeHandle`. -/
def JSObject.DeepCopy (c : Env) (s : State) (boilerplate site : Addr)
    (enable_mementos : Bool) (copy_hints : DeepCopyHints) : Res Val :=
  let s := s.record (.DeepCopy boilerplate site enable_mementos copy_hints)
  match c.DeepCopy s.heap boilerplate site enable_mementos copy_hints with
  | some (copy, heap) => .ok (.ref copy) { s with heap := heap }
  | none => .exception s

/-- The copy hints computed by `CreateLiteral` from the flags. -/
def CreateLiteral.copy_hints (c : Env) (flags : Int) : DeepCopyHints :=
  let copy_hints :=
    if Int.land flags c.kShallowProperties != 0 then DeepCopyHints.kObjectIsShallow
    else DeepCopyHints.kNoHints
  if c.FLAG_track_double_fields && !c.FLAG_unbox_double_fields then .kNoHints
  else copy_hints

/-- The end of `CreateLiteral` ("Copy the existing boilerplate"). -/
def CreateLiteral.copy (c : Env) (s : State) (site boilerplate : Addr) (flags : Int) :
    Res Val :=
  let enable_mementos := Int.land flags c.kDisableMementos == 0
  JSObject.DeepCopy c s boilerplate site enable_mementos (CreateLiteral.copy_hints c flags)

/-- The function `CreateLiteral<Boilerplate>`.  The closure is represented by its feedback vector,
held in the state, and `slot_count()` is the number of cells of the vector. -/
def CreateLiteral (B : Boilerplate) (c : Env) (fuel : Nat) (s : State)
    (literals_index : Int) (description : Addr) (flags : Int) : Res Val :=
  let literals_slot := c.ToSlot literals_index
  if ¬ literals_slot < (s.vector.length : Int) then .fatal s
  else
    (FeedbackVector.Get s literals_slot).bind fun literal_site s =>
      let copy_hints := CreateLiteral.copy_hints c flags
      if HasBoilerplate literal_site then
        match literal_site with
        | .ref site =>
          match s.heap[site]? with
          | some (.AllocationSite (.ref boilerplate)) =>
            CreateLiteral.copy c s site boilerplate flags
          | _ => .undefined s
        | _ => .undefined s
      else
        (B.Create c (InnerCreateBoilerplate c fuel) s description flags).bind
          fun boilerplate s =>
            if IsUninitializedLiteralSite literal_site then
              let s := PreInitializeLiteralSite s literals_slot
              if copy_hints = .kNoHints then
                (JSObject.DeepWalk c .DeprecationUpdateContext s boilerplate).bind
                  fun _ s => .ok (.ref boilerplate) s
              else .ok (.ref boilerplate) s
            else
              let (site, s) := AllocationSiteCreationContext.EnterNewScope s
              (JSObject.DeepWalk c .AllocationSiteCreationContext s boilerplate).bind
                fun _ s =>
                  let s := AllocationSiteCreationContext.ExitScope s site boilerplate
                  let s := FeedbackVector.Set s literals_slot (.ref site)
                  CreateLiteral.copy c s site boilerplate flags

/-- The function `Runtime_CreateObjectLiteral`.  `CONVERT_ARG_HANDLE_CHECKED` is a `CHECK` of the
type of the argument. -/
def Runtime_CreateObjectLiteral (c : Env) (fuel : Nat) (s : State)
    (literals_index : Int) (description : Addr) (flags : Int) : Res Val :=
  match s.heap[description]? with
  | some (.BoilerplateDescription _ _) =>
    CreateLiteral .ObjectBoilerplate c fuel s literals_index description flags
  | _ => .fatal s

/-- The function `Runtime_CreateArrayLiteral`.  `CONVERT_ARG_HANDLE_CHECKED` is a `CHECK` of the
type of the argument. -/
def Runtime_CreateArrayLiteral (c : Env) (fuel : Nat) (s : State)
    (literals_index : Int) (elements : Addr) (flags : Int) : Res Val :=
  match s.heap[elements]? with
  | some (.ConstantElementsPair _ _) =>
    CreateLiteral .ArrayBoilerplate c fuel s literals_index elements flags
  | _ => .fatal s

/-- Modelled from the spec: `compile(pattern, flags) -> RegexObject`, failing with the
error of the engine (`JSRegExp::New`, defined in `src/objects.cc`). -/
def JSRegExp.New (c : Env) (s : State) (pattern : String) (flags : Int) : Res Val :=
  let s := s.record (.JSRegExp_New pattern flags)
  if c.RegExpCompiles pattern flags then
    let (regexp, s) := s.alloc (.JSRegExp pattern flags)
    .ok (.ref regexp) s
  else .exception s

/-- Modelled from the spec: "construct a new regex object carrying the same
pattern/flags" (`JSRegExp::Copy`, defined in `src/objects.cc`).  The argument is a
handle: `none` is the empty handle, which `Copy` dereferences. -/
def JSRegExp.Copy (s : State) (regexp : Option Val) : Res Val :=
  match regexp with
  | some (.ref boilerplate) =>
    match s.heap[boilerplate]? with
    | some (.JSRegExp pattern flags) =>
      let s := s.record (.JSRegExp_Copy boilerplate)
      let (copy, s) := s.alloc (.JSRegExp pattern flags)
      .ok (.ref copy) s
    | _ => .undefined s
  | _ => .undefined s

/-- The function `Runtime_CreateRegExpLiteral`.  `boilerplate` is declared as an empty handle and
assigned only where no boilerplate exists yet. -/
def Runtime_CreateRegExpLiteral (c : Env) (s : State) (index : Int) (pattern : String)
    (flags : Int) : Res Val :=
  let literal_slot := c.ToSlot index
  (FeedbackVector.Get s literal_slot).bind fun literal_site s =>
    let boilerplate : Option Val := none
    if !HasBoilerplate literal_site then
      (JSRegExp.New c s pattern flags).bind fun created s =>
        let boilerplate := some created
        if IsUninitializedLiteralSite literal_site then
          .ok created (PreInitializeLiteralSite s literal_slot)
        else
          JSRegExp.Copy (FeedbackVector.Set s literal_slot created) boilerplate
    else JSRegExp.Copy s boilerplate

/-! ## Specification-level definitions: frames, well-formed descriptions, installation of pairs -/

/-- Events that the builders log.  `lo` is the heap size when the builder was entered:
an object that is migrated was allocated by the builder itself, and the shape cache is
consulted only on behalf of a literal that is not flagged null-prototype. -/
def BuilderEvent (c : Env) (lo : Nat) : Event → Prop
  | .ObjectBoilerplate_Create _ _ => True
  | .ArrayBoilerplate_Create _ _ => True
  | .ObjectLiteralMapFromCache flags _ => Int.land flags c.kHasNullPrototype = 0
  | .MigrateSlowToFast boilerplate => lo ≤ boilerplate
  | _ => False

/-- What a builder run from `s` to `s'` leaves alone: the heap only grows, every
object below `lo` is unchanged, the feedback vector is unchanged, and the log is
extended by builder events only. -/
def Frame (c : Env) (lo : Nat) (s s' : State) : Prop :=
  s.heap.length ≤ s'.heap.length ∧
  (∀ a, a < lo → s'.heap[a]? = s.heap[a]?) ∧
  s'.vector = s.vector ∧
  s'.vector_in_new_space = s.vector_in_new_space ∧
  ∃ evs, s'.log = s.log ++ evs ∧ ∀ e ∈ evs, BuilderEvent c s.heap.length e

/-- The contract of the forward-declared `InnerCreateBoilerplate` that the builders
rely on: it returns a reference to an object it allocated and changes nothing that
existed before. -/
def InnerFrame (c : Env) (inner : State → Addr → Res Val) : Prop :=
  ∀ s a v s', inner s a = .ok v s' →
    Frame c s.heap.length s s' ∧ ∃ r, v = .ref r ∧ s.heap.length ≤ r ∧ r < s'.heap.length

/-- The shape chosen by `ObjectBoilerplate::Create`. -/
def ObjectBoilerplate.Create.map (c : Env) (flags : Int) (size : Nat) : Map :=
  if Int.land flags c.kHasNullPrototype != 0 then slow_object_with_null_prototype_map
  else c.ObjectLiteralMapFromCache size

/-- The state in which the property loop of `ObjectBoilerplate::Create` starts: the
empty boilerplate has been allocated at the end of the heap. -/
def ObjectBoilerplate.Create.start (c : Env) (s : State) (d : Addr) (flags : Int)
    (size : Nat) : State :=
  { s with
    heap := s.heap ++
      [.JSObject (ObjectBoilerplate.Create.map c flags size) [] []
        (!(Int.land flags c.kFastElements != 0)) (pretenureFor s)
        (if (ObjectBoilerplate.Create.map c flags size).is_dictionary_map then some size
         else none)],
    log := s.log ++
      (if Int.land flags c.kHasNullPrototype != 0 then
        [.ObjectBoilerplate_Create d flags]
       else [.ObjectBoilerplate_Create d flags, .ObjectLiteralMapFromCache flags size]) }

/-- A plain constant of a description: not a nested-literal marker, and not a
dangling reference. -/
def PlainValue (s : State) (v : Val) : Bool :=
  match v with
  | .ref a => decide (a < s.heap.length) && !IsFixedArray s v
  | _ => true

/-- A boilerplate description whose values satisfy `wf`; in a debug build the keys
also satisfy the `DCHECK` of the property loop (a key that is not an array index is
not a string spelling one). -/
def WellFormedObjectDescription (c : Env) (s : State) (wf : Val → Bool) (d : Addr) :
    Bool :=
  match s.heap[d]? with
  | some (.BoilerplateDescription _ entries) =>
    entries.all fun e =>
      wf e.2 && (!c.debug || (c.ToArrayIndex e.1).isSome || (c.AsArrayIndex e.1).isNone)
  | _ => false

/-- A constant-elements pair whose backing storage has the type that its element
kind announces and whose values, where the builder visits them, satisfy `wf`; in a
debug build the `DCHECK`s of the builder hold as well. -/
def WellFormedArrayDescription (c : Env) (s : State) (wf : Val → Bool) (d : Addr) :
    Bool :=
  match s.heap[d]? with
  | some (.ConstantElementsPair kind constant_values) =>
    if IsFastDoubleElementsKind kind then
      match s.heap[constant_values]? with
      | some (.FixedDoubleArray _) => true
      | _ => false
    else
      (!c.debug || IsFastSmiOrObjectElementsKind kind) &&
      match s.heap[constant_values]? with
      | some (.FixedArray cow values) =>
        if cow then !c.debug || values.all (PlainValue s) else values.all wf
      | _ => false
  | _ => false

/-- The value `v` of a description is well formed, with nesting depth at most `n`: a
reference is not dangling, and a nested-literal marker carries a kind flag and the
elements of a well-formed description of depth at most `n - 1`. -/
def WellFormedValue (c : Env) (s : State) : Nat → Val → Bool
  | 0, v => PlainValue s v
  | n + 1, v =>
    match v with
    | .ref a =>
      decide (a < s.heap.length) &&
        (!IsFixedArray s v ||
          match CompileTimeValue.GetElements s a, CompileTimeValue.GetLiteralTypeFlags s a with
          | some elements, some flags =>
            if flags = c.kArrayLiteralFlag then
              WellFormedArrayDescription c s (WellFormedValue c s n) elements
            else WellFormedObjectDescription c s (WellFormedValue c s n) elements
          | _, _ => false)
    | _ => true

/-- The heap of `s'` extends the heap of `s`: every object of `s` is still there,
unchanged. -/
def Extends (s s' : State) : Prop :=
  s.heap.length ≤ s'.heap.length ∧ ∀ a, a < s.heap.length → s'.heap[a]? = s.heap[a]?

/-- Installation of one (key, value) pair, in the words of the specification: a key
that parses as an array index is installed as an indexed element, an "uninitialized"
placeholder being treated as numeric zero; any other key is installed as a named
property. -/
def Spec.installPair (c : Env) (object : List (Val × Val) × List (Nat × Val))
    (pair : Val × Val) : List (Val × Val) × List (Nat × Val) :=
  match c.ToArrayIndex pair.1 with
  | some index =>
    (object.1, storeEntry index (if pair.2 = .uninitialized then .smi 0 else pair.2) object.2)
  | none => (storeEntry pair.1 pair.2 object.1, object.2)

/-- Installation of the pairs in declaration order. -/
def Spec.installPairs (c : Env) (object : List (Val × Val) × List (Nat × Val))
    (pairs : List (Val × Val)) : List (Val × Val) × List (Nat × Val) :=
  pairs.foldl (Spec.installPair c) object

/-- Every object of `s` other than the one at address `b` is still there, unchanged,
in `s'`. -/
def KeepsExcept (b : Addr) (s s' : State) : Prop :=
  s.heap.length ≤ s'.heap.length ∧
    ∀ a, a < s.heap.length → a ≠ b → s'.heap[a]? = s.heap[a]?

/-- The value `v'` stands for the value `v` of a description, in the final state `s'`
of a builder that fills the object at address `b`: when `v` is a nested-literal
marker, `v'` is the boilerplate that `inner` built for it, and whatever that run of
`inner` left in the heap is unchanged in `s'`; otherwise `v'` is `v` itself. -/
def Replaced (inner : State → Addr → Res Val) (s0 : State) (b : Addr) (s' : State)
    (v v' : Val) : Prop :=
  if IsFixedArray s0 v then
    ∃ s1 s2, Extends s0 s1 ∧ b < s1.heap.length ∧ inner s1 v.addr = .ok v' s2 ∧
      KeepsExcept b s2 s'
  else v' = v

/-- The shape of the boilerplate returned by `ObjectBoilerplate::Create`. -/
def ObjectBoilerplate.Create.finalMap (c : Env) (flags : Int) (size : Nat) : Map :=
  if (ObjectBoilerplate.Create.map c flags size).is_dictionary_map &&
      !(Int.land flags c.kHasNullPrototype != 0) then
    c.MigrateSlowToFast (ObjectBoilerplate.Create.map c flags size)
      (ObjectBoilerplate.Create.map c flags size).unused_property_fields
  else ObjectBoilerplate.Create.map c flags size

/-- The indexed elements that a list of pairs denotes: the pairs whose key is an
array index, with an uninitialized placeholder read as Smi zero. -/
def Spec.indexedPairs (c : Env) (pairs : List (Val × Val)) : List (Nat × Val) :=
  pairs.filterMap fun p =>
    (c.ToArrayIndex p.1).map fun i => (i, if p.2 = .uninitialized then .smi 0 else p.2)

/-- The value returned, when the run returns normally. -/
def Res.value? {α : Type} : Res α → Option α
  | .ok a _ => some a
  | _ => none

/-- The state in which the run ended, when there is one. -/
def Res.state? {α : Type} : Res α → Option State
  | .ok _ s => some s
  | .exception s => some s
  | .fatal s => some s
  | .undefined s => some s
  | .outOfFuel => none

/-- A sample environment: a release build, flags on distinct bits, array indices
spelled as non-negative Smis, a shape cache that hands out fast shapes up to 128
properties, a deep walk that changes nothing and a deep copy that clones the top-level
object. -/
def sampleEnv : Env :=
  { kFastElements := 1, kHasNullPrototype := 8, kShallowProperties := 2,
    kDisableMementos := 4, kArrayLiteralFlag := -1,
    FLAG_track_double_fields := true, FLAG_unbox_double_fields := true,
    debug := false,
    ToSlot := fun index => index,
    ToArrayIndex := fun v =>
      match v with
      | .smi n => if 0 ≤ n then some n.toNat else none
      | _ => none,
    AsArrayIndex := fun _ => none,
    ObjectLiteralMapFromCache := fun n =>
      { is_dictionary_map := decide (128 < n), prototype := some 0,
        unused_property_fields := 0 },
    MigrateSlowToFast := fun m _ => { m with is_dictionary_map := false },
    DeepWalk := fun _ h _ => some h,
    DeepCopy := fun h b _ _ _ =>
      match h[b]? with
      | some o => some (h.length, h ++ [o])
      | none => none,
    RegExpCompiles := fun _ _ => true }

/-- A heap holding the descriptions of `[1, [2], 3]` (addresses 0 to 4) and of
`{a: 1, 0: <uninitialized>, b: [2], a: 5}` (address 5), a boilerplate and its
allocation site (6, 7), a regular expression (8), and a copy-on-write backing storage
that holds a nested-literal marker, with its description (9, 10), which does not meet
the precondition of the array builder. -/
def sampleHeap : List HeapObject :=
  [ .FixedArray true [.smi 2],
    .ConstantElementsPair .FAST_SMI_ELEMENTS 0,
    .FixedArray false [.smi (-1), .ref 1],
    .FixedArray false [.smi 1, .ref 2, .smi 3],
    .ConstantElementsPair .FAST_ELEMENTS 3,
    .BoilerplateDescription 2
      [(.str "a", .smi 1), (.smi 0, .uninitialized), (.str "b", .ref 2), (.str "a", .smi 5)],
    .JSObject { is_dictionary_map := false, prototype := some 0, unused_property_fields := 0 }
      [(.str "x", .smi 7)] [] false .NOT_TENURED none,
    .AllocationSite (.ref 6),
    .JSRegExp "ab" 0,
    .FixedArray true [.smi 1, .ref 2, .smi 3],
    .ConstantElementsPair .FAST_ELEMENTS 9 ]

/-- A closure with four literals: slot 0 is uninitialized, slot 1 pre-initialized,
slot 2 holds an allocation site and slot 3 a regular-expression boilerplate. -/
def sampleState : State :=
  { heap := sampleHeap, vector := [.smi 0, .smi 1, .ref 7, .ref 8],
    vector_in_new_space := true, log := [] }

/-- The value `v'` is what a builder that was entered in state `s`, fills the object
at address `b` and ends in state `s'` makes of the value `v` of its description: when
`v` is a nested-literal marker, `v'` is a reference to the boilerplate returned by the
builder that the kind flag of the marker selects (the array builder for the
array-literal flag, the object builder otherwise), run on the elements of the marker
in a state `s1` that extends `s`, and every object that this nested run left in the
heap (state `s2`), the nested boilerplate included, is unchanged in `s'`; otherwise
`v'` is `v`. -/
def BuiltFrom (c : Env) (fuel : Nat) (s : State) (b : Addr) (s' : State) (v v' : Val) :
    Prop :=
  if IsFixedArray s v then
    ∃ elements flags r s1 s2,
      CompileTimeValue.GetElements s v.addr = some elements ∧
      CompileTimeValue.GetLiteralTypeFlags s v.addr = some flags ∧
      v' = .ref r ∧ Extends s s1 ∧
      (if flags = c.kArrayLiteralFlag then
        ArrayBoilerplate.Create c (InnerCreateBoilerplate c (fuel - 1)) s1 elements flags =
          .ok r s2
      else
        ObjectBoilerplate.Create c (InnerCreateBoilerplate c (fuel - 1)) s1 elements flags =
          .ok r s2) ∧
      r < s2.heap.length ∧ r ≠ b ∧ KeepsExcept b s2 s'
  else v' = v

/-- The description handed to `CreateLiteral<Boilerplate>` is well formed, with
nesting depth at most `fuel`. -/
def Boilerplate.WellFormedDescription (B : Boilerplate) (c : Env) (s : State) (fuel : Nat)
    (d : Addr) : Bool :=
  match B with
  | .ObjectBoilerplate => WellFormedObjectDescription c s (WellFormedValue c s fuel) d
  | .ArrayBoilerplate => WellFormedArrayDescription c s (WellFormedValue c s fuel) d

/-! ## Theorems -/

theorem BuilderEvent.mono {c : Env} {lo lo' : Nat} {e : Event} (h : lo ≤ lo')
    (he : BuilderEvent c lo' e) : BuilderEvent c lo e := by
  cases e <;> simp_all [BuilderEvent]
  omega

theorem Frame.frame_refl (c : Env) (lo : Nat) (s : State) : Frame c lo s s :=
  ⟨le_refl _, fun _ _ => rfl, rfl, rfl, [], by simp, by simp⟩

theorem Frame.frame_trans {c : Env} {lo : Nat} {s s1 s2 : State} (h1 : Frame c lo s s1)
    (h2 : Frame c lo s1 s2) : Frame c lo s s2 := by
  obtain ⟨l1, p1, v1, n1, e1, le1, be1⟩ := h1
  obtain ⟨l2, p2, v2, n2, e2, le2, be2⟩ := h2
  refine ⟨le_trans l1 l2, fun a ha => (p2 a ha).trans (p1 a ha), v2.trans v1,
    n2.trans n1, e1 ++ e2, by rw [le2, le1, List.append_assoc], ?_⟩
  intro e he
  rcases List.mem_append.mp he with h | h
  · exact be1 e h
  · exact BuilderEvent.mono l1 (be2 e h)

theorem Frame.weaken {c : Env} {lo lo' : Nat} {s s' : State} (h : lo ≤ lo')
    (hf : Frame c lo' s s') : Frame c lo s s' :=
  ⟨hf.1, fun a ha => hf.2.1 a (lt_of_lt_of_le ha h), hf.2.2.1, hf.2.2.2.1, hf.2.2.2.2⟩

theorem Frame.of_record {c : Env} (lo : Nat) (s : State) (e : Event)
    (he : BuilderEvent c s.heap.length e) : Frame c lo s (s.record e) :=
  ⟨le_refl _, fun _ _ => rfl, rfl, rfl, [e], rfl, by simpa using he⟩

theorem Frame.alloc {c : Env} (s : State) (o : HeapObject) :
    Frame c s.heap.length s (s.alloc o).2 := by
  refine ⟨by simp [State.alloc], fun a ha => ?_, rfl, rfl, [], by simp [State.alloc],
    by simp⟩
  simp [State.alloc, List.getElem?_append, ha]

theorem Frame.of_store {c : Env} {lo : Nat} (s : State) (a : Addr) (o : HeapObject)
    (ha : lo ≤ a) : Frame c lo s (s.store a o) := by
  refine ⟨by simp [State.store], fun a' ha' => ?_, rfl, rfl, [], by simp [State.store],
    by simp⟩
  have : a ≠ a' := Nat.ne_of_gt (lt_of_lt_of_le ha' ha)
  simp [State.store, List.getElem?_set, this]

theorem State.store_heap_self (s : State) (a : Addr) (o : HeapObject)
    (ha : a < s.heap.length) : (s.store a o).heap[a]? = some o := by
  simp [State.store, List.getElem?_set, ha]

theorem State.store_heap_length (s : State) (a : Addr) (o : HeapObject) :
    (s.store a o).heap.length = s.heap.length := by
  simp [State.store]

theorem lt_length_of_getElem? {α : Type} {l : List α} {a : Nat} {x : α}
    (h : l[a]? = some x) : a < l.length := by
  by_contra hn
  rw [List.getElem?_eq_none (not_lt.mp hn)] at h
  cases h

theorem JSObject.SetOwnElementIgnoreAttributes_eq (s : State) (b : Addr) (i : Nat)
    (v : Val) {map : Map} {props : List (Val × Val)} {elems : List (Nat × Val)}
    {norm : Bool} {pret : PretenureFlag} {cap : Option Nat}
    (hb : s.heap[b]? = some (.JSObject map props elems norm pret cap)) :
    JSObject.SetOwnElementIgnoreAttributes s b i v =
      s.store b (.JSObject map props (storeEntry i v elems) norm pret cap) := by
  simp [JSObject.SetOwnElementIgnoreAttributes, hb]

theorem JSObject.SetOwnPropertyIgnoreAttributes_eq (s : State) (b : Addr) (k : Val)
    (v : Val) {map : Map} {props : List (Val × Val)} {elems : List (Nat × Val)}
    {norm : Bool} {pret : PretenureFlag} {cap : Option Nat}
    (hb : s.heap[b]? = some (.JSObject map props elems norm pret cap)) :
    JSObject.SetOwnPropertyIgnoreAttributes s b k v =
      s.store b (.JSObject map (storeEntry k v props) elems norm pret cap) := by
  simp [JSObject.SetOwnPropertyIgnoreAttributes, hb]

/-- The step of the loops that replaces a nested-literal marker by its boilerplate. -/
theorem Frame.of_value_step {c : Env} {inner : State → Addr → Res Val}
    (hinner : InnerFrame c inner) {s s1 : State} {value v : Val}
    (h : (if IsFixedArray s value then inner s value.addr else .ok value s) = .ok v s1) :
    Frame c s.heap.length s s1 := by
  split at h
  · exact (hinner _ _ _ _ h).1
  · cases h
    exact Frame.frame_refl _ _ _

/-- Frame of the property loop of `ObjectBoilerplate::Create`: everything below the
boilerplate under construction is left alone and the boilerplate keeps its shape. -/
theorem ObjectBoilerplate.Create.loop_objectFrame {c : Env} {inner : State → Addr → Res Val}
    (hinner : InnerFrame c inner) (b d : Addr) :
    ∀ (n index : Nat) (s s' : State) (map : Map) (props : List (Val × Val))
      (elems : List (Nat × Val)) (norm : Bool) (pret : PretenureFlag) (cap : Option Nat),
      s.heap[b]? = some (.JSObject map props elems norm pret cap) →
      ObjectBoilerplate.Create.loop c inner b d n index s = .ok () s' →
      Frame c b s s' ∧
        ∃ props' elems', s'.heap[b]? = some (.JSObject map props' elems' norm pret cap) := by
  intro n
  induction n with
  | zero =>
    intro index s s' map props elems norm pret cap hb h
    simp only [ObjectBoilerplate.Create.loop] at h
    cases h
    exact ⟨Frame.frame_refl _ _ _, props, elems, hb⟩
  | succ n ih =>
    intro index s s' map props elems norm pret cap hb h
    have hblt : b < s.heap.length := lt_length_of_getElem? hb
    simp only [ObjectBoilerplate.Create.loop] at h
    split at h
    · split at h
      · rename_i key value _
        cases hv : (if IsFixedArray s value then inner s value.addr else Res.ok value s) with
        | ok v s1 =>
          rw [hv] at h
          simp only [Res.bind] at h
          have hf1 : Frame c s.heap.length s s1 := Frame.of_value_step hinner hv
          have hb1 : s1.heap[b]? = some (.JSObject map props elems norm pret cap) := by
            rw [hf1.2.1 b hblt]; exact hb
          have hf1b : Frame c b s s1 := Frame.weaken (le_of_lt hblt) hf1
          split at h
          · rename_i element_index _
            rw [JSObject.SetOwnElementIgnoreAttributes_eq _ _ _ _ hb1] at h
            have hst := State.store_heap_self s1 b
              (.JSObject map props
                (storeEntry element_index (if v = .uninitialized then .smi 0 else v) elems)
                norm pret cap) (lt_length_of_getElem? hb1)
            obtain ⟨hf2, hres⟩ := ih _ _ _ _ _ _ _ _ _ hst h
            exact ⟨Frame.frame_trans hf1b (Frame.frame_trans (Frame.of_store _ _ _ (le_refl _)) hf2), hres⟩
          · split at h
            · cases h
            · rw [JSObject.SetOwnPropertyIgnoreAttributes_eq _ _ _ _ hb1] at h
              have hst := State.store_heap_self s1 b
                (.JSObject map (storeEntry key v props) elems norm pret cap)
                (lt_length_of_getElem? hb1)
              obtain ⟨hf2, hres⟩ := ih _ _ _ _ _ _ _ _ _ hst h
              exact ⟨Frame.frame_trans hf1b (Frame.frame_trans (Frame.of_store _ _ _ (le_refl _)) hf2),
                hres⟩
        | exception s1 => rw [hv] at h; simp [Res.bind] at h
        | fatal s1 => rw [hv] at h; simp [Res.bind] at h
        | undefined s1 => rw [hv] at h; simp [Res.bind] at h
        | outOfFuel => rw [hv] at h; simp [Res.bind] at h
      · cases h
    · cases h

theorem set_append_singleton {α : Type} (h : List α) (o o' : α) :
    (h ++ [o]).set h.length o' = h ++ [o'] := by
  induction h with
  | nil => rfl
  | cons x xs ih => simp [List.set, ih]

theorem ObjectBoilerplate.Create_eq (c : Env) (inner : State → Addr → Res Val)
    (s : State) (d : Addr) (flags : Int) (size : Nat) (entries : List (Val × Val))
    (hd : s.heap[d]? = some (.BoilerplateDescription size entries)) :
    ObjectBoilerplate.Create c inner s d flags =
      (ObjectBoilerplate.Create.loop c inner s.heap.length d entries.length 0
          (ObjectBoilerplate.Create.start c s d flags size)).bind
        fun _ s1 =>
          .ok s.heap.length
            (if (ObjectBoilerplate.Create.map c flags size).is_dictionary_map &&
                !(Int.land flags c.kHasNullPrototype != 0) then
              JSObject.MigrateSlowToFast c s1 s.heap.length
            else s1) := by
  have hd' : (s.record (.ObjectBoilerplate_Create d flags)).heap[d]? =
      some (.BoilerplateDescription size entries) := hd
  simp only [ObjectBoilerplate.Create, hd']
  by_cases hn : (Int.land flags c.kHasNullPrototype != 0) = true <;>
  by_cases hf : (Int.land flags c.kFastElements != 0) = true <;>
  cases hm : (ObjectBoilerplate.Create.map c flags size).is_dictionary_map <;>
  simp [ObjectBoilerplate.Create.map, hn] at hm <;>
  simp [ObjectBoilerplate.Create.map, ObjectBoilerplate.Create.start, hn, hf, hm,
    Factory.NewSlowJSObjectFromMap, Factory.NewJSObjectFromMap, State.alloc, State.record,
    JSObject.NormalizeElements, State.store, pretenureFor, set_append_singleton]

theorem ObjectBoilerplate.Create.start_frame (c : Env) (s : State) (d : Addr)
    (flags : Int) (size : Nat) :
    Frame c s.heap.length s (ObjectBoilerplate.Create.start c s d flags size) := by
  refine ⟨by simp [ObjectBoilerplate.Create.start], fun a ha => ?_, rfl, rfl, _, rfl, ?_⟩
  · simp [ObjectBoilerplate.Create.start, List.getElem?_append, ha]
  · intro e he
    by_cases hn : (Int.land flags c.kHasNullPrototype != 0) = true
    · simp [hn] at he
      subst he
      trivial
    · simp [hn] at he
      rcases he with he | he
      · subst he; trivial
      · subst he
        simpa [BuilderEvent] using hn

theorem JSObject.MigrateSlowToFast_frame (c : Env) (s : State) (b : Addr) :
    s.heap.length = (JSObject.MigrateSlowToFast c s b).heap.length ∧
    (∀ a, a ≠ b → (JSObject.MigrateSlowToFast c s b).heap[a]? = s.heap[a]?) ∧
    (JSObject.MigrateSlowToFast c s b).vector = s.vector ∧
    (JSObject.MigrateSlowToFast c s b).vector_in_new_space = s.vector_in_new_space ∧
    (JSObject.MigrateSlowToFast c s b).log = s.log ++ [.MigrateSlowToFast b] := by
  simp only [JSObject.MigrateSlowToFast]
  split
  · refine ⟨by simp [State.store, State.record], fun a ha => ?_, rfl, rfl, rfl⟩
    simp [State.store, State.record, List.getElem?_set, Ne.symm ha]
  · exact ⟨rfl, fun _ _ => rfl, rfl, rfl, rfl⟩

theorem Frame.migrate {c : Env} {lo : Nat} {s s1 : State} {b : Addr}
    (hf : Frame c lo s s1) (hlo : lo ≤ b) (hb : s.heap.length ≤ b) :
    Frame c lo s (JSObject.MigrateSlowToFast c s1 b) := by
  obtain ⟨m1, m2, m3, m4, m5⟩ := JSObject.MigrateSlowToFast_frame c s1 b
  obtain ⟨l1, p1, v1, n1, e1, le1, be1⟩ := hf
  refine ⟨m1 ▸ l1, fun a ha => ?_, m3.trans v1, m4.trans n1, e1 ++ [.MigrateSlowToFast b],
    by rw [m5, le1, List.append_assoc], ?_⟩
  · rw [m2 a (Nat.ne_of_lt (lt_of_lt_of_le ha hlo))]
    exact p1 a ha
  · intro e he
    rcases List.mem_append.mp he with h | h
    · exact be1 e h
    · simp at h
      subst h
      exact hb

theorem ObjectBoilerplate.Create_objectFrame {c : Env} {inner : State → Addr → Res Val}
    (hinner : InnerFrame c inner) {s s' : State} {d r : Addr} {flags : Int}
    (h : ObjectBoilerplate.Create c inner s d flags = .ok r s') :
    Frame c s.heap.length s s' ∧ r = s.heap.length ∧ r < s'.heap.length := by
  cases hd : s.heap[d]? with
  | none => simp [ObjectBoilerplate.Create, State.record, hd] at h
  | some o =>
    cases o with
    | BoilerplateDescription size entries =>
      rw [ObjectBoilerplate.Create_eq c inner s d flags size entries hd] at h
      cases hl : ObjectBoilerplate.Create.loop c inner s.heap.length d entries.length 0
          (ObjectBoilerplate.Create.start c s d flags size) with
      | ok u s1 =>
        rw [hl] at h
        simp only [Res.bind, Res.ok.injEq] at h
        obtain ⟨hr, hs'⟩ := h
        have hstart := ObjectBoilerplate.Create.start_frame c s d flags size
        have hb : (ObjectBoilerplate.Create.start c s d flags size).heap[s.heap.length]? =
            some (.JSObject (ObjectBoilerplate.Create.map c flags size) [] []
              (!(Int.land flags c.kFastElements != 0)) (pretenureFor s)
              (if (ObjectBoilerplate.Create.map c flags size).is_dictionary_map then
                some size else none)) := by
          simp [ObjectBoilerplate.Create.start]
        obtain ⟨hf, props', elems', hb'⟩ :=
          ObjectBoilerplate.Create.loop_objectFrame hinner _ _ _ _ _ _ _ _ _ _ _ _ hb hl
        have hf1 : Frame c s.heap.length s s1 := Frame.frame_trans hstart hf
        have hlt : s.heap.length < s1.heap.length := lt_length_of_getElem? hb'
        subst hr
        refine ⟨?_, rfl, ?_⟩
        · split at hs'
          · subst hs'
            exact Frame.migrate hf1 (le_refl _) (le_refl _)
          · subst hs'; exact hf1
        · split at hs'
          · subst hs'
            rw [← (JSObject.MigrateSlowToFast_frame c s1 s.heap.length).1]
            exact hlt
          · subst hs'; exact hlt
      | exception s1 => rw [hl] at h; simp [Res.bind] at h
      | fatal s1 => rw [hl] at h; simp [Res.bind] at h
      | undefined s1 => rw [hl] at h; simp [Res.bind] at h
      | outOfFuel => rw [hl] at h; simp [Res.bind] at h
    | _ => simp [ObjectBoilerplate.Create, State.record, hd] at h

theorem FixedArray.set_eq (s : State) (a : Addr) (i : Nat) (v : Val) {cow : Bool}
    {values : List Val} (ha : s.heap[a]? = some (.FixedArray cow values)) :
    FixedArray.set s a i v = s.store a (.FixedArray cow (values.set i v)) := by
  simp [FixedArray.set, ha]

/-- Frame of the copy loop of `ArrayBoilerplate::Create`: everything below the copy
is left alone and the copy stays a `FixedArray` of the same map and length. -/
theorem ArrayBoilerplate.Create.loop_arrayFrame {c : Env} {inner : State → Addr → Res Val}
    (hinner : InnerFrame c inner) (orig copy : Addr) :
    ∀ (n i : Nat) (s s' : State) (cow : Bool) (values : List Val),
      s.heap[copy]? = some (.FixedArray cow values) →
      ArrayBoilerplate.Create.loop inner orig copy n i s = .ok () s' →
      Frame c copy s s' ∧
        ∃ values', s'.heap[copy]? = some (.FixedArray cow values') ∧
          values'.length = values.length := by
  intro n
  induction n with
  | zero =>
    intro i s s' cow values hc h
    simp only [ArrayBoilerplate.Create.loop] at h
    cases h
    exact ⟨Frame.frame_refl _ _ _, values, hc, rfl⟩
  | succ n ih =>
    intro i s s' cow values hc h
    have hclt : copy < s.heap.length := lt_length_of_getElem? hc
    simp only [ArrayBoilerplate.Create.loop] at h
    split at h
    · split at h
      · rename_i value _
        split at h
        · cases hv : inner s value.addr with
          | ok v s1 =>
            rw [hv] at h
            simp only [Res.bind] at h
            have hf1 : Frame c s.heap.length s s1 := (hinner _ _ _ _ hv).1
            have hc1 : s1.heap[copy]? = some (.FixedArray cow values) := by
              rw [hf1.2.1 copy hclt]; exact hc
            rw [FixedArray.set_eq _ _ _ _ hc1] at h
            have hst := State.store_heap_self s1 copy (.FixedArray cow (values.set i v))
              (lt_length_of_getElem? hc1)
            obtain ⟨hf2, values', hres, hlen⟩ := ih _ _ _ _ _ hst h
            refine ⟨Frame.frame_trans (Frame.weaken (le_of_lt hclt) hf1)
              (Frame.frame_trans (Frame.of_store _ _ _ (le_refl _)) hf2), values', hres, ?_⟩
            simpa using hlen
          | exception s1 => rw [hv] at h; simp [Res.bind] at h
          | fatal s1 => rw [hv] at h; simp [Res.bind] at h
          | undefined s1 => rw [hv] at h; simp [Res.bind] at h
          | outOfFuel => rw [hv] at h; simp [Res.bind] at h
        · exact ih _ _ _ _ _ hc h
      · cases h
    · cases h

theorem ArrayBoilerplate.Create.finish_eq (s : State) (elements : Addr)
    (kind : ElementsKind) :
    ArrayBoilerplate.Create.finish s elements kind =
      .ok s.heap.length
        { s with heap := s.heap ++
            [.JSArray elements kind (FixedArrayBase.length s elements) (pretenureFor s)] } :=
  rfl

theorem ArrayBoilerplate.Create.finish_frame {c : Env} {s s' : State} {elements r : Addr}
    {kind : ElementsKind} (h : ArrayBoilerplate.Create.finish s elements kind = .ok r s') :
    Frame c s.heap.length s s' ∧ r = s.heap.length ∧ r < s'.heap.length := by
  rw [ArrayBoilerplate.Create.finish_eq] at h
  simp only [Res.ok.injEq] at h
  obtain ⟨hr, hs⟩ := h
  subst hr hs
  exact ⟨Frame.alloc s _, rfl, by simp⟩

theorem ArrayBoilerplate.Create_arrayFrame {c : Env} {inner : State → Addr → Res Val}
    (hinner : InnerFrame c inner) {s s' : State} {d r : Addr} {flags : Int}
    (h : ArrayBoilerplate.Create c inner s d flags = .ok r s') :
    Frame c s.heap.length s s' ∧ s.heap.length ≤ r ∧ r < s'.heap.length := by
  have hrec : Frame c s.heap.length s (s.record (.ArrayBoilerplate_Create d flags)) :=
    Frame.of_record _ _ _ trivial
  simp only [ArrayBoilerplate.Create] at h
  split at h
  · rename_i kind cev _
    split at h
    · split at h
      · rename_i values _
        obtain ⟨hf, hr, hlt⟩ := ArrayBoilerplate.Create.finish_frame (c := c) h
        have ha := Frame.alloc (c := c) (s.record (.ArrayBoilerplate_Create d flags))
          (.FixedDoubleArray values)
        have hf' := Frame.frame_trans hrec (Frame.frame_trans ha
          (Frame.weaken (by simp [State.alloc, State.record]) hf))
        refine ⟨hf', ?_, hlt⟩
        rw [hr]
        simp [State.alloc, State.record]
      · cases h
    · split at h
      · cases h
      · split at h
        · rename_i is_cow values hcev
          split at h
          · split at h
            · cases h
            · obtain ⟨hf, hr, hlt⟩ := ArrayBoilerplate.Create.finish_frame (c := c) h
              exact ⟨Frame.frame_trans hrec hf, by rw [hr]; simp [State.record], hlt⟩
          · cases hl : ArrayBoilerplate.Create.loop inner cev
                ((s.record (.ArrayBoilerplate_Create d flags)).alloc
                  (.FixedArray false values)).1 values.length 0
                ((s.record (.ArrayBoilerplate_Create d flags)).alloc
                  (.FixedArray false values)).2 with
            | ok u s1 =>
              rw [hl] at h
              simp only [Res.bind] at h
              have hc : ((s.record (.ArrayBoilerplate_Create d flags)).alloc
                  (.FixedArray false values)).2.heap[
                    ((s.record (.ArrayBoilerplate_Create d flags)).alloc
                      (.FixedArray false values)).1]? = some (.FixedArray false values) := by
                simp [State.alloc, State.record]
              obtain ⟨hf1, -⟩ := ArrayBoilerplate.Create.loop_arrayFrame hinner _ _ _ _ _ _ _ _ hc hl
              obtain ⟨hf, hr, hlt⟩ := ArrayBoilerplate.Create.finish_frame (c := c) h
              have ha := Frame.alloc (c := c) (s.record (.ArrayBoilerplate_Create d flags))
                (.FixedArray false values)
              have hf1' : Frame c s.heap.length s s1 :=
                Frame.frame_trans hrec (Frame.frame_trans ha hf1)
              refine ⟨Frame.frame_trans hf1' (Frame.weaken hf1'.1 hf), ?_, hlt⟩
              rw [hr]
              exact hf1'.1
            | exception s1 => rw [hl] at h; simp [Res.bind] at h
            | fatal s1 => rw [hl] at h; simp [Res.bind] at h
            | undefined s1 => rw [hl] at h; simp [Res.bind] at h
            | outOfFuel => rw [hl] at h; simp [Res.bind] at h
        · cases h
  · cases h

/-- The function `InnerCreateBoilerplate` satisfies the contract that the builders rely on, for
every recursion bound. -/
theorem InnerCreateBoilerplate_frame (c : Env) :
    ∀ fuel, InnerFrame c (InnerCreateBoilerplate c fuel) := by
  intro fuel
  induction fuel with
  | zero =>
    intro s a v s' h
    simp [InnerCreateBoilerplate] at h
  | succ fuel ih =>
    intro s a v s' h
    simp only [InnerCreateBoilerplate] at h
    split at h
    · split at h
      · cases hc : ArrayBoilerplate.Create c (InnerCreateBoilerplate c fuel) s _ _ with
        | ok r s1 =>
          rw [hc] at h
          simp only [Res.bind, Res.ok.injEq] at h
          obtain ⟨hv, hs⟩ := h
          subst hv hs
          obtain ⟨hf, h1, h2⟩ := ArrayBoilerplate.Create_arrayFrame ih hc
          exact ⟨hf, r, rfl, h1, h2⟩
        | exception s1 => rw [hc] at h; simp [Res.bind] at h
        | fatal s1 => rw [hc] at h; simp [Res.bind] at h
        | undefined s1 => rw [hc] at h; simp [Res.bind] at h
        | outOfFuel => rw [hc] at h; simp [Res.bind] at h
      · cases hc : ObjectBoilerplate.Create c (InnerCreateBoilerplate c fuel) s _ _ with
        | ok r s1 =>
          rw [hc] at h
          simp only [Res.bind, Res.ok.injEq] at h
          obtain ⟨hv, hs⟩ := h
          subst hv hs
          obtain ⟨hf, h1, h2⟩ := ObjectBoilerplate.Create_objectFrame ih hc
          exact ⟨hf, r, rfl, le_of_eq h1.symm, h2⟩
        | exception s1 => rw [hc] at h; simp [Res.bind] at h
        | fatal s1 => rw [hc] at h; simp [Res.bind] at h
        | undefined s1 => rw [hc] at h; simp [Res.bind] at h
        | outOfFuel => rw [hc] at h; simp [Res.bind] at h
    · cases h

theorem Boilerplate.Create_anyFrame {B : Boilerplate} {c : Env} {fuel : Nat} {s s' : State}
    {d r : Addr} {flags : Int}
    (h : B.Create c (InnerCreateBoilerplate c fuel) s d flags = .ok r s') :
    Frame c s.heap.length s s' ∧ s.heap.length ≤ r ∧ r < s'.heap.length := by
  cases B with
  | ObjectBoilerplate =>
    obtain ⟨hf, h1, h2⟩ := ObjectBoilerplate.Create_objectFrame (InnerCreateBoilerplate_frame c fuel) h
    exact ⟨hf, le_of_eq h1.symm, h2⟩
  | ArrayBoilerplate =>
    exact ArrayBoilerplate.Create_arrayFrame (InnerCreateBoilerplate_frame c fuel) h

/-- What `CreateLiteral` does when the slot holds a boilerplate (an allocation
site). -/
theorem CreateLiteral_of_site (B : Boilerplate) (c : Env) (fuel : Nat) (s : State)
    (literals_index : Int) (description : Addr) (flags : Int) (site : Addr)
    (transition_info : Val) (hidx : 0 ≤ c.ToSlot literals_index)
    (hslot : s.vector[(c.ToSlot literals_index).toNat]? = some (.ref site))
    (hsite : s.heap[site]? = some (.AllocationSite transition_info)) :
    CreateLiteral B c fuel s literals_index description flags =
      match transition_info with
      | .ref boilerplate =>
        CreateLiteral.copy c (s.record (.FeedbackVector_Get (c.ToSlot literals_index))) site
          boilerplate flags
      | _ => .undefined (s.record (.FeedbackVector_Get (c.ToSlot literals_index))) := by
  have hlt : c.ToSlot literals_index < (s.vector.length : Int) := by
    have := lt_length_of_getElem? hslot
    omega
  have hsite' : (s.record (.FeedbackVector_Get (c.ToSlot literals_index))).heap[site]? =
      some (.AllocationSite transition_info) := hsite
  cases transition_info <;>
    simp [CreateLiteral, hlt, FeedbackVector.Get, Res.bind, hidx, hslot, HasBoilerplate,
      Val.IsSmi, hsite']

theorem CreateLiteral_out_of_range (B : Boilerplate) (c : Env) (fuel : Nat) (s : State)
    (literals_index : Int) (description : Addr) (flags : Int)
    (h : (s.vector.length : Int) ≤ c.ToSlot literals_index) :
    CreateLiteral B c fuel s literals_index description flags = .fatal s := by
  simp [CreateLiteral, not_lt.mpr h]

theorem Runtime_CreateObjectLiteral_out_of_range (c : Env) (fuel : Nat) (s : State)
    (literals_index : Int) (description : Addr) (flags : Int)
    (h : (s.vector.length : Int) ≤ c.ToSlot literals_index) :
    Runtime_CreateObjectLiteral c fuel s literals_index description flags = .fatal s := by
  simp only [Runtime_CreateObjectLiteral]
  split
  · exact CreateLiteral_out_of_range _ _ _ _ _ _ _ h
  · rfl

theorem Runtime_CreateArrayLiteral_out_of_range (c : Env) (fuel : Nat) (s : State)
    (literals_index : Int) (elements : Addr) (flags : Int)
    (h : (s.vector.length : Int) ≤ c.ToSlot literals_index) :
    Runtime_CreateArrayLiteral c fuel s literals_index elements flags = .fatal s := by
  simp only [Runtime_CreateArrayLiteral]
  split
  · exact CreateLiteral_out_of_range _ _ _ _ _ _ _ h
  · rfl

theorem Runtime_CreateRegExpLiteral_out_of_range (c : Env) (s : State) (index : Int)
    (pattern : String) (flags : Int) (h : (s.vector.length : Int) ≤ c.ToSlot index) :
    Runtime_CreateRegExpLiteral c s index pattern flags = .fatal s := by
  have : s.vector[(c.ToSlot index).toNat]? = none := by
    apply List.getElem?_eq_none
    omega
  simp [Runtime_CreateRegExpLiteral, FeedbackVector.Get, Res.bind, this]

theorem Runtime_CreateRegExpLiteral_of_boilerplate (c : Env) (s : State) (index : Int)
    (pattern : String) (flags : Int) (literal_site : Val) (hidx : 0 ≤ c.ToSlot index)
    (hslot : s.vector[(c.ToSlot index).toNat]? = some literal_site)
    (hb : HasBoilerplate literal_site = true) :
    Runtime_CreateRegExpLiteral c s index pattern flags =
      .undefined (s.record (.FeedbackVector_Get (c.ToSlot index))) := by
  simp [Runtime_CreateRegExpLiteral, FeedbackVector.Get, Res.bind, hidx, hslot, hb,
    JSRegExp.Copy]

/-- What `CreateLiteral` does when the slot holds the sentinel zero. -/
theorem CreateLiteral_of_uninitialized (B : Boilerplate) (c : Env) (fuel : Nat)
    (s : State) (literals_index : Int) (description : Addr) (flags : Int)
    (hidx : 0 ≤ c.ToSlot literals_index)
    (hslot : s.vector[(c.ToSlot literals_index).toNat]? = some (.smi 0)) :
    CreateLiteral B c fuel s literals_index description flags =
      (B.Create c (InnerCreateBoilerplate c fuel)
          (s.record (.FeedbackVector_Get (c.ToSlot literals_index))) description flags).bind
        fun boilerplate s1 =>
          if CreateLiteral.copy_hints c flags = .kNoHints then
            (JSObject.DeepWalk c .DeprecationUpdateContext
                (PreInitializeLiteralSite s1 (c.ToSlot literals_index)) boilerplate).bind
              fun _ s2 => .ok (.ref boilerplate) s2
          else .ok (.ref boilerplate) (PreInitializeLiteralSite s1 (c.ToSlot literals_index)) := by
  have hlt : c.ToSlot literals_index < (s.vector.length : Int) := by
    have := lt_length_of_getElem? hslot
    omega
  simp [CreateLiteral, hlt, FeedbackVector.Get, Res.bind, hidx, hslot, HasBoilerplate,
    Val.IsSmi, IsUninitializedLiteralSite]

/-- What `CreateLiteral` does when the slot holds a Smi other than the sentinel zero
(the pre-initialization marker is `Smi::FromInt(1)`). -/
theorem CreateLiteral_of_preinitialized (B : Boilerplate) (c : Env) (fuel : Nat)
    (s : State) (literals_index : Int) (description : Addr) (flags : Int) (n : Int)
    (hn : n ≠ 0) (hidx : 0 ≤ c.ToSlot literals_index)
    (hslot : s.vector[(c.ToSlot literals_index).toNat]? = some (.smi n)) :
    CreateLiteral B c fuel s literals_index description flags =
      (B.Create c (InnerCreateBoilerplate c fuel)
          (s.record (.FeedbackVector_Get (c.ToSlot literals_index))) description flags).bind
        fun boilerplate s1 =>
          (JSObject.DeepWalk c .AllocationSiteCreationContext
              (AllocationSiteCreationContext.EnterNewScope s1).2 boilerplate).bind
            fun _ s2 =>
              CreateLiteral.copy c
                (FeedbackVector.Set
                  (AllocationSiteCreationContext.ExitScope s2
                    (AllocationSiteCreationContext.EnterNewScope s1).1 boilerplate)
                  (c.ToSlot literals_index) (.ref (AllocationSiteCreationContext.EnterNewScope s1).1))
                (AllocationSiteCreationContext.EnterNewScope s1).1 boilerplate flags := by
  have hlt : c.ToSlot literals_index < (s.vector.length : Int) := by
    have := lt_length_of_getElem? hslot
    omega
  have h0 : (Val.smi n == Val.smi 0) = false := by
    simp [hn]
  simp [CreateLiteral, hlt, FeedbackVector.Get, Res.bind, hidx, hslot, HasBoilerplate,
    Val.IsSmi, IsUninitializedLiteralSite, h0]

theorem Extends.extends_refl (s : State) : Extends s s := ⟨le_refl _, fun _ _ => rfl⟩

theorem Extends.extends_trans {s s1 s2 : State} (h1 : Extends s s1) (h2 : Extends s1 s2) :
    Extends s s2 :=
  ⟨le_trans h1.1 h2.1, fun a ha => (h2.2 a (lt_of_lt_of_le ha h1.1)).trans (h1.2 a ha)⟩

theorem Extends.of_frame {c : Env} {lo : Nat} {s0 s s' : State} (h0 : Extends s0 s)
    (hlo : s0.heap.length ≤ lo) (hf : Frame c lo s s') : Extends s0 s' :=
  ⟨le_trans h0.1 hf.1, fun a ha => (hf.2.1 a (lt_of_lt_of_le ha hlo)).trans (h0.2 a ha)⟩

theorem Extends.getElem? {s s' : State} (h : Extends s s') {a : Addr} {o : HeapObject}
    (ha : s.heap[a]? = some o) : s'.heap[a]? = some o := by
  rw [h.2 a (lt_length_of_getElem? ha)]; exact ha

theorem Extends.isFixedArray {s s' : State} (h : Extends s s') {a : Addr}
    (ha : a < s.heap.length) : IsFixedArray s' (.ref a) = IsFixedArray s (.ref a) := by
  simp [IsFixedArray, h.2 a ha]

theorem Extends.getElements {s s' : State} (h : Extends s s') {a : Addr}
    (ha : a < s.heap.length) :
    CompileTimeValue.GetElements s' a = CompileTimeValue.GetElements s a := by
  simp [CompileTimeValue.GetElements, h.2 a ha]

theorem Extends.getLiteralTypeFlags {s s' : State} (h : Extends s s') {a : Addr}
    (ha : a < s.heap.length) :
    CompileTimeValue.GetLiteralTypeFlags s' a = CompileTimeValue.GetLiteralTypeFlags s a := by
  simp [CompileTimeValue.GetLiteralTypeFlags, h.2 a ha]

theorem PlainValue.extends_plain {s s' : State} (h : Extends s s') {v : Val}
    (hv : PlainValue s v = true) : PlainValue s' v = true := by
  cases v with
  | ref a =>
    simp only [PlainValue, Bool.and_eq_true, decide_eq_true_eq] at hv ⊢
    exact ⟨lt_of_lt_of_le hv.1 h.1, by rw [h.isFixedArray hv.1]; exact hv.2⟩
  | _ => rfl

theorem WellFormedObjectDescription.extends_object {c : Env} {s s' : State} (h : Extends s s')
    {wf wf' : Val → Bool} (hwf : ∀ v, wf v = true → wf' v = true) {d : Addr}
    (hd : WellFormedObjectDescription c s wf d = true) :
    WellFormedObjectDescription c s' wf' d = true := by
  simp only [WellFormedObjectDescription] at hd ⊢
  split at hd
  · rename_i size entries heq
    rw [h.getElem? heq]
    simp only [List.all_eq_true, Bool.and_eq_true] at hd ⊢
    exact fun e he => ⟨hwf _ (hd e he).1, (hd e he).2⟩
  · cases hd

theorem WellFormedArrayDescription.extends_array {c : Env} {s s' : State} (h : Extends s s')
    {wf wf' : Val → Bool} (hwf : ∀ v, wf v = true → wf' v = true) {d : Addr}
    (hd : WellFormedArrayDescription c s wf d = true) :
    WellFormedArrayDescription c s' wf' d = true := by
  simp only [WellFormedArrayDescription] at hd ⊢
  split at hd
  · rename_i kind cev heq
    rw [h.getElem? heq]
    simp only
    split at hd
    · rename_i hk
      simp only [hk, if_true]
      split at hd
      · rename_i vals heq2
        rw [h.getElem? heq2]
      · cases hd
    · rename_i hk
      simp only [hk, Bool.false_eq_true, ↓reduceIte, Bool.and_eq_true] at hd ⊢
      refine ⟨hd.1, ?_⟩
      have hd2 := hd.2
      split at hd2
      · rename_i cow values heq2
        rw [h.getElem? heq2]
        simp only
        split at hd2
        · rename_i hcow
          simp only [hcow, if_true]
          simp only [Bool.or_eq_true, List.all_eq_true] at hd2 ⊢
          rcases hd2 with hdbg | hall
          · exact Or.inl hdbg
          · exact Or.inr fun v hv => PlainValue.extends_plain h (hall v hv)
        · rename_i hcow
          simp only [hcow, Bool.false_eq_true, ↓reduceIte, List.all_eq_true] at hd2 ⊢
          exact fun v hv => hwf v (hd2 v hv)
      · cases hd2
  · cases hd

theorem WellFormedValue.extends_value {c : Env} {s s' : State} (h : Extends s s') :
    ∀ (n : Nat) (v : Val), WellFormedValue c s n v = true → WellFormedValue c s' n v = true := by
  intro n
  induction n with
  | zero =>
    intro v hv
    exact PlainValue.extends_plain h hv
  | succ n ih =>
    intro v hv
    cases v with
    | ref a =>
      simp only [WellFormedValue, Bool.and_eq_true, decide_eq_true_eq, Bool.or_eq_true] at hv ⊢
      obtain ⟨halt, hv⟩ := hv
      refine ⟨lt_of_lt_of_le halt h.1, ?_⟩
      rw [h.isFixedArray halt, h.getElements halt, h.getLiteralTypeFlags halt]
      rcases hv with hv | hv
      · exact Or.inl hv
      · right
        split at hv
        · split at hv
          · rename_i hfl
            simp only [hfl, if_true]
            exact WellFormedArrayDescription.extends_array h ih hv
          · rename_i hfl
            simp only [hfl]
            exact WellFormedObjectDescription.extends_object h ih hv
        · cases hv
    | _ => rfl

theorem WellFormedValue.isFixedArray_extends {c : Env} {s s' : State} (h : Extends s s')
    {n : Nat} {v : Val} (hv : WellFormedValue c s n v = true) :
    IsFixedArray s' v = IsFixedArray s v := by
  cases v with
  | ref a =>
    have halt : a < s.heap.length := by
      cases n <;>
        simp only [WellFormedValue, PlainValue, Bool.and_eq_true, decide_eq_true_eq] at hv <;>
        exact hv.1
    exact h.isFixedArray halt
  | _ => rfl

theorem Extends.by_store {s0 s : State} (h : Extends s0 s) {a : Addr} (o : HeapObject)
    (ha : s0.heap.length ≤ a) : Extends s0 (s.store a o) := by
  refine ⟨by simpa [State.store] using h.1, fun a' ha' => ?_⟩
  have : a ≠ a' := Nat.ne_of_gt (lt_of_lt_of_le ha' ha)
  simp [State.store, List.getElem?_set, this, h.2 a' ha']

theorem KeepsExcept.keeps_refl (b : Addr) (s : State) : KeepsExcept b s s :=
  ⟨le_refl _, fun _ _ _ => rfl⟩

theorem KeepsExcept.keeps_trans {b : Addr} {s s1 s2 : State} (h1 : KeepsExcept b s s1)
    (h2 : KeepsExcept b s1 s2) : KeepsExcept b s s2 :=
  ⟨le_trans h1.1 h2.1,
    fun a ha hne => (h2.2 a (lt_of_lt_of_le ha h1.1) hne).trans (h1.2 a ha hne)⟩

theorem KeepsExcept.of_builder_frame {c : Env} (b : Addr) {s s' : State}
    (hf : Frame c s.heap.length s s') : KeepsExcept b s s' :=
  ⟨hf.1, fun a ha _ => hf.2.1 a ha⟩

theorem KeepsExcept.of_store_at (b : Addr) (s : State) (o : HeapObject) :
    KeepsExcept b s (s.store b o) := by
  refine ⟨by simp [State.store], fun a _ hne => ?_⟩
  simp [State.store, List.getElem?_set, Ne.symm hne]

theorem KeepsExcept.of_append (b : Addr) (s : State) (o : HeapObject) :
    KeepsExcept b s { s with heap := s.heap ++ [o] } := by
  refine ⟨by simp, fun a ha _ => ?_⟩
  simp [List.getElem?_append, ha]

theorem JSObject.SetOwnElementIgnoreAttributes_keeps (s : State) (b : Addr) (i : Nat)
    (v : Val) : KeepsExcept b s (JSObject.SetOwnElementIgnoreAttributes s b i v) := by
  simp only [JSObject.SetOwnElementIgnoreAttributes]
  split
  · exact KeepsExcept.of_store_at _ _ _
  · exact KeepsExcept.keeps_refl _ _

theorem JSObject.SetOwnPropertyIgnoreAttributes_keeps (s : State) (b : Addr) (k v : Val) :
    KeepsExcept b s (JSObject.SetOwnPropertyIgnoreAttributes s b k v) := by
  simp only [JSObject.SetOwnPropertyIgnoreAttributes]
  split
  · exact KeepsExcept.of_store_at _ _ _
  · exact KeepsExcept.keeps_refl _ _

theorem JSObject.MigrateSlowToFast_keeps (c : Env) (s : State) (b : Addr) :
    KeepsExcept b s (JSObject.MigrateSlowToFast c s b) := by
  obtain ⟨m1, m2, -⟩ := JSObject.MigrateSlowToFast_frame c s b
  exact ⟨le_of_eq m1, fun a _ hne => m2 a hne⟩

theorem FixedArray.set_keeps (s : State) (a : Addr) (i : Nat) (v : Val) :
    KeepsExcept a s (FixedArray.set s a i v) := by
  simp only [FixedArray.set]
  split
  · exact KeepsExcept.of_store_at _ _ _
  · exact KeepsExcept.keeps_refl _ _

/-- The property loop of `ObjectBoilerplate::Create` changes no object other than the
boilerplate under construction. -/
theorem ObjectBoilerplate.Create.loop_objectKeeps {c : Env}
    {inner : State → Addr → Res Val} (hinner : InnerFrame c inner) (b d : Addr) :
    ∀ (n index : Nat) (s s' : State),
      ObjectBoilerplate.Create.loop c inner b d n index s = .ok () s' →
      KeepsExcept b s s' := by
  intro n
  induction n with
  | zero =>
    intro index s s' h
    simp only [ObjectBoilerplate.Create.loop] at h
    cases h
    exact KeepsExcept.keeps_refl _ _
  | succ n ih =>
    intro index s s' h
    simp only [ObjectBoilerplate.Create.loop] at h
    split at h
    · split at h
      · rename_i key value _
        cases hv : (if IsFixedArray s value then inner s value.addr else Res.ok value s) with
        | ok v s1 =>
          rw [hv] at h
          simp only [Res.bind] at h
          have hk1 : KeepsExcept b s s1 :=
            KeepsExcept.of_builder_frame b (Frame.of_value_step hinner hv)
          split at h
          · exact KeepsExcept.keeps_trans hk1 (KeepsExcept.keeps_trans
              (JSObject.SetOwnElementIgnoreAttributes_keeps _ _ _ _) (ih _ _ _ h))
          · split at h
            · cases h
            · exact KeepsExcept.keeps_trans hk1 (KeepsExcept.keeps_trans
                (JSObject.SetOwnPropertyIgnoreAttributes_keeps _ _ _ _) (ih _ _ _ h))
        | exception s1 => rw [hv] at h; simp [Res.bind] at h
        | fatal s1 => rw [hv] at h; simp [Res.bind] at h
        | undefined s1 => rw [hv] at h; simp [Res.bind] at h
        | outOfFuel => rw [hv] at h; simp [Res.bind] at h
      · cases h
    · cases h

/-- The copy loop of `ArrayBoilerplate::Create` changes no object other than the
copy. -/
theorem ArrayBoilerplate.Create.loop_arrayKeeps {c : Env}
    {inner : State → Addr → Res Val} (hinner : InnerFrame c inner) (orig copy : Addr) :
    ∀ (n i : Nat) (s s' : State),
      ArrayBoilerplate.Create.loop inner orig copy n i s = .ok () s' →
      KeepsExcept copy s s' := by
  intro n
  induction n with
  | zero =>
    intro i s s' h
    simp only [ArrayBoilerplate.Create.loop] at h
    cases h
    exact KeepsExcept.keeps_refl _ _
  | succ n ih =>
    intro i s s' h
    simp only [ArrayBoilerplate.Create.loop] at h
    split at h
    · split at h
      · rename_i value _
        split at h
        · cases hv : inner s value.addr with
          | ok v s1 =>
            rw [hv] at h
            simp only [Res.bind] at h
            exact KeepsExcept.keeps_trans
              (KeepsExcept.of_builder_frame copy (hinner _ _ _ _ hv).1)
              (KeepsExcept.keeps_trans (FixedArray.set_keeps _ _ _ _) (ih _ _ _ h))
          | exception s1 => rw [hv] at h; simp [Res.bind] at h
          | fatal s1 => rw [hv] at h; simp [Res.bind] at h
          | undefined s1 => rw [hv] at h; simp [Res.bind] at h
          | outOfFuel => rw [hv] at h; simp [Res.bind] at h
        · exact ih _ _ _ h
      · cases h
    · cases h

theorem Replaced.keeps_mono {inner : State → Addr → Res Val} {s0 : State} {b : Addr}
    {s' s'' : State} {v v' : Val} (hk : KeepsExcept b s' s'')
    (h : Replaced inner s0 b s' v v') : Replaced inner s0 b s'' v v' := by
  simp only [Replaced] at h ⊢
  split
  · rename_i hm
    rw [if_pos hm] at h
    obtain ⟨s1, s2, h1, hlt, h2, h3⟩ := h
    exact ⟨s1, s2, h1, hlt, h2, KeepsExcept.keeps_trans h3 hk⟩
  · rename_i hm
    rw [if_neg hm] at h
    exact h

/-- The property loop of `ObjectBoilerplate::Create` runs to completion on a
well-formed description and installs the pairs in declaration order. -/
theorem ObjectBoilerplate.Create.loop_objectTotal {c : Env} {inner : State → Addr → Res Val}
    (hinner : InnerFrame c inner) {n : Nat}
    (htotal : ∀ s v, WellFormedValue c s n v = true → IsFixedArray s v = true →
      ∃ r s', inner s v.addr = .ok r s')
    (b d : Addr) (s0 : State) (size : Nat) (entries : List (Val × Val))
    (hd : s0.heap[d]? = some (.BoilerplateDescription size entries))
    (hb0 : s0.heap.length ≤ b) :
    ∀ (k index : Nat) (s : State) (map : Map) (props : List (Val × Val))
      (elems : List (Nat × Val)) (norm : Bool) (pret : PretenureFlag) (cap : Option Nat),
      index + k = entries.length → Extends s0 s →
      (∀ e ∈ entries.drop index, WellFormedValue c s0 n e.2 = true ∧
        (c.debug = true → c.ToArrayIndex e.1 = none → c.AsArrayIndex e.1 = none)) →
      s.heap[b]? = some (.JSObject map props elems norm pret cap) →
      ∃ s' values,
        ObjectBoilerplate.Create.loop c inner b d k index s = .ok () s' ∧
        List.Forall₂ (Replaced inner s0 b s') ((entries.drop index).map Prod.snd) values ∧
        s'.heap[b]? = some (.JSObject map
          (Spec.installPairs c (props, elems)
            (((entries.drop index).map Prod.fst).zip values)).1
          (Spec.installPairs c (props, elems)
            (((entries.drop index).map Prod.fst).zip values)).2 norm pret cap) := by
  intro k
  induction k with
  | zero =>
    intro index s map props elems norm pret cap hlen hext hwf hb
    have hdrop : entries.drop index = [] := List.drop_eq_nil_of_le (by omega)
    refine ⟨s, [], rfl, ?_, ?_⟩
    · rw [hdrop]; exact List.Forall₂.nil
    · rw [hdrop]; simpa [Spec.installPairs] using hb
  | succ k ih =>
    intro index s map props elems norm pret cap hlen hext hwf hb
    have hidx : index < entries.length := by omega
    have hdrop : entries.drop index = entries[index] :: entries.drop (index + 1) :=
      List.drop_eq_getElem_cons hidx
    rcases hent : entries[index] with ⟨key, value⟩
    rw [hent] at hdrop
    have hget : entries[index]? = some (key, value) := by
      rw [List.getElem?_eq_getElem hidx, hent]
    obtain ⟨hwfv, hdbg⟩ := hwf (key, value) (by rw [hdrop]; exact List.mem_cons_self _ _)
    have hwf' : ∀ e ∈ entries.drop (index + 1), WellFormedValue c s0 n e.2 = true ∧
        (c.debug = true → c.ToArrayIndex e.1 = none → c.AsArrayIndex e.1 = none) :=
      fun e he => hwf e (by rw [hdrop]; exact List.mem_cons_of_mem _ he)
    have hfa : IsFixedArray s value = IsFixedArray s0 value :=
      WellFormedValue.isFixedArray_extends hext hwfv
    have hblt : b < s.heap.length := lt_length_of_getElem? hb
    -- the value installed, and the state after a nested build
    obtain ⟨v, s1, hv, hrep, hf1⟩ : ∃ v s1,
        (if IsFixedArray s value then inner s value.addr else Res.ok value s) = .ok v s1 ∧
        (∀ s', KeepsExcept b s1 s' → Replaced inner s0 b s' value v) ∧
        Frame c s.heap.length s s1 := by
      by_cases hm : IsFixedArray s value = true
      · obtain ⟨r, s1, hr⟩ := htotal s value (WellFormedValue.extends_value hext n value hwfv) hm
        refine ⟨r, s1, by simp [hm, hr], ?_, (hinner _ _ _ _ hr).1⟩
        intro s' hk
        simp only [Replaced, ← hfa, hm, if_true]
        exact ⟨s, s1, hext, hblt, hr, hk⟩
      · refine ⟨value, s, by simp [hm], ?_, Frame.frame_refl _ _ _⟩
        intro s' _
        simp only [Replaced, ← hfa, hm]
        simp
    have hb1 : s1.heap[b]? = some (.JSObject map props elems norm pret cap) := by
      rw [hf1.2.1 b hblt]; exact hb
    have hext1 : Extends s0 s1 := hext.of_frame hext.1 hf1
    have hloop : ObjectBoilerplate.Create.loop c inner b d (k + 1) index s =
        match c.ToArrayIndex key with
        | some element_index =>
          ObjectBoilerplate.Create.loop c inner b d k (index + 1)
            (JSObject.SetOwnElementIgnoreAttributes s1 b element_index
              (if v = .uninitialized then .smi 0 else v))
        | none =>
          if c.debug && (c.AsArrayIndex key).isSome then .fatal s1
          else
            ObjectBoilerplate.Create.loop c inner b d k (index + 1)
              (JSObject.SetOwnPropertyIgnoreAttributes s1 b key v) := by
      simp only [ObjectBoilerplate.Create.loop, hext.getElem? hd, hget, hv, Res.bind]
    rw [hloop, hdrop]
    cases hk : c.ToArrayIndex key with
    | some element_index =>
      simp only
      rw [JSObject.SetOwnElementIgnoreAttributes_eq _ _ _ _ hb1]
      obtain ⟨s', values, hl, hall, hres⟩ := ih (index + 1) _ map props
        (storeEntry element_index (if v = .uninitialized then .smi 0 else v) elems) norm pret cap
        (by omega) (hext1.by_store _ hb0) hwf'
        (State.store_heap_self s1 b _ (lt_length_of_getElem? hb1))
      have hkeep : KeepsExcept b s1 s' :=
        KeepsExcept.keeps_trans (KeepsExcept.of_store_at _ _ _)
          (ObjectBoilerplate.Create.loop_objectKeeps hinner _ _ _ _ _ _ hl)
      refine ⟨s', v :: values, hl, List.Forall₂.cons (hrep s' hkeep) hall, ?_⟩
      simpa [Spec.installPairs, Spec.installPair, hk] using hres
    | none =>
      have hnd : (c.debug && (c.AsArrayIndex key).isSome) = false := by
        cases hdb : c.debug with
        | false => rfl
        | true => simp [hdbg hdb hk]
      simp only [hnd]
      rw [JSObject.SetOwnPropertyIgnoreAttributes_eq _ _ _ _ hb1]
      obtain ⟨s', values, hl, hall, hres⟩ := ih (index + 1) _ map
        (storeEntry key v props) elems norm pret cap
        (by omega) (hext1.by_store _ hb0) hwf'
        (State.store_heap_self s1 b _ (lt_length_of_getElem? hb1))
      have hkeep : KeepsExcept b s1 s' :=
        KeepsExcept.keeps_trans (KeepsExcept.of_store_at _ _ _)
          (ObjectBoilerplate.Create.loop_objectKeeps hinner _ _ _ _ _ _ hl)
      refine ⟨s', v :: values, hl, List.Forall₂.cons (hrep s' hkeep) hall, ?_⟩
      simpa [Spec.installPairs, Spec.installPair, hk] using hres

/-- The copy loop of `ArrayBoilerplate::Create` runs to completion on well-formed
backing storage; it overwrites exactly the cells of the copy whose original holds a
nested-literal marker, with the boilerplate built for that marker. -/
theorem ArrayBoilerplate.Create.loop_arrayTotal {c : Env} {inner : State → Addr → Res Val}
    (hinner : InnerFrame c inner) {n : Nat}
    (htotal : ∀ s v, WellFormedValue c s n v = true → IsFixedArray s v = true →
      ∃ r s', inner s v.addr = .ok r s')
    (orig copy : Addr) (s0 : State) (cow0 : Bool) (values : List Val)
    (ho : s0.heap[orig]? = some (.FixedArray cow0 values))
    (hc0 : s0.heap.length ≤ copy) :
    ∀ (k i : Nat) (s : State) (cow : Bool) (cur : List Val),
      i + k = values.length → Extends s0 s →
      (∀ v ∈ values.drop i, WellFormedValue c s0 n v = true) →
      s.heap[copy]? = some (.FixedArray cow cur) →
      ∃ s' cur',
        ArrayBoilerplate.Create.loop inner orig copy k i s = .ok () s' ∧
        s'.heap[copy]? = some (.FixedArray cow cur') ∧
        cur'.length = cur.length ∧
        (∀ j, j < i → cur'[j]? = cur[j]?) ∧
        (∀ j v, i ≤ j → values[j]? = some v →
          if IsFixedArray s0 v then
            j < cur.length → ∃ v' s1 s2, cur'[j]? = some v' ∧ Extends s0 s1 ∧
              copy < s1.heap.length ∧ inner s1 v.addr = .ok v' s2 ∧ KeepsExcept copy s2 s'
          else cur'[j]? = cur[j]?) := by
  intro k
  induction k with
  | zero =>
    intro i s cow cur hlen hext hwf hc
    refine ⟨s, cur, rfl, hc, rfl, fun _ _ => rfl, ?_⟩
    intro j v hij hv
    have : j < values.length := lt_length_of_getElem? hv
    omega
  | succ k ih =>
    intro i s cow cur hlen hext hwf hc
    have hidx : i < values.length := by omega
    have hdrop : values.drop i = values[i] :: values.drop (i + 1) :=
      List.drop_eq_getElem_cons hidx
    have hget : values[i]? = some values[i] := List.getElem?_eq_getElem hidx
    have hwfv : WellFormedValue c s0 n values[i] = true :=
      hwf _ (by rw [hdrop]; exact List.mem_cons_self _ _)
    have hwf' : ∀ v ∈ values.drop (i + 1), WellFormedValue c s0 n v = true :=
      fun v hv => hwf v (by rw [hdrop]; exact List.mem_cons_of_mem _ hv)
    have hfa : IsFixedArray s values[i] = IsFixedArray s0 values[i] :=
      WellFormedValue.isFixedArray_extends hext hwfv
    have hclt : copy < s.heap.length := lt_length_of_getElem? hc
    by_cases hm : IsFixedArray s values[i] = true
    · obtain ⟨r, s1, hr⟩ := htotal s _ (WellFormedValue.extends_value hext n _ hwfv) hm
      have hf1 : Frame c s.heap.length s s1 := (hinner _ _ _ _ hr).1
      have hc1 : s1.heap[copy]? = some (.FixedArray cow cur) := by
        rw [hf1.2.1 copy hclt]; exact hc
      have hext1 : Extends s0 s1 := hext.of_frame hext.1 hf1
      have hloop : ArrayBoilerplate.Create.loop inner orig copy (k + 1) i s =
          ArrayBoilerplate.Create.loop inner orig copy k (i + 1)
            (s1.store copy (.FixedArray cow (cur.set i r))) := by
        simp only [ArrayBoilerplate.Create.loop, hext.getElem? ho, hget, hm, if_true, hr,
          Res.bind, FixedArray.set_eq _ _ _ _ hc1]
      obtain ⟨s', cur', hl, hc', hlen', hlow, hhigh⟩ := ih (i + 1) _ cow (cur.set i r)
        (by omega) (hext1.by_store _ hc0) hwf'
        (State.store_heap_self s1 copy _ (lt_length_of_getElem? hc1))
      refine ⟨s', cur', by rw [hloop]; exact hl, hc', by simpa using hlen', ?_, ?_⟩
      · intro j hj
        rw [hlow j (by omega), List.getElem?_set]
        simp [Nat.ne_of_gt hj]
      · intro j v hij hv
        rcases Nat.eq_or_lt_of_le hij with heq | hlt
        · subst heq
          have hvi : v = values[i] := by
            rw [hget] at hv; exact (Option.some.inj hv).symm
          subst hvi
          rw [← hfa, hm]
          simp only [if_true]
          intro hjc
          refine ⟨r, s, s1, ?_, hext, hclt, hr,
            KeepsExcept.keeps_trans (KeepsExcept.of_store_at _ _ _)
              (ArrayBoilerplate.Create.loop_arrayKeeps hinner _ _ _ _ _ _ hl)⟩
          rw [hlow i (by omega), List.getElem?_set]
          simp [hjc]
        · have h2 := hhigh j v (by omega) hv
          split
          · rename_i hmv
            rw [if_pos hmv] at h2
            intro hjc
            exact h2 (by simpa using hjc)
          · rename_i hmv
            rw [if_neg hmv] at h2
            rw [h2, List.getElem?_set]
            simp [Nat.ne_of_lt hlt]
    · have hloop : ArrayBoilerplate.Create.loop inner orig copy (k + 1) i s =
          ArrayBoilerplate.Create.loop inner orig copy k (i + 1) s := by
        simp only [ArrayBoilerplate.Create.loop, hext.getElem? ho, hget, hm]
        simp
      obtain ⟨s', cur', hl, hc', hlen', hlow, hhigh⟩ := ih (i + 1) s cow cur
        (by omega) hext hwf' hc
      refine ⟨s', cur', by rw [hloop]; exact hl, hc', hlen', fun j hj => hlow j (by omega),
        ?_⟩
      intro j v hij hv
      rcases Nat.eq_or_lt_of_le hij with heq | hlt
      · subst heq
        have hvi : v = values[i] := by
          rw [hget] at hv; exact (Option.some.inj hv).symm
        subst hvi
        rw [← hfa]
        simp only [hm]
        simp only [Bool.false_eq_true, if_false]
        exact hlow i (by omega)
      · exact hhigh j v (by omega) hv

theorem ObjectBoilerplate.Create.start_extends (c : Env) (s : State) (d : Addr)
    (flags : Int) (size : Nat) :
    Extends s (ObjectBoilerplate.Create.start c s d flags size) :=
  ⟨(ObjectBoilerplate.Create.start_frame c s d flags size).1,
    (ObjectBoilerplate.Create.start_frame c s d flags size).2.1⟩

/-- The function `ObjectBoilerplate::Create` returns on every well-formed description, and the
boilerplate it returns holds the pairs installed in declaration order. -/
theorem ObjectBoilerplate.Create_objectTotal {c : Env} {inner : State → Addr → Res Val}
    (hinner : InnerFrame c inner) {n : Nat}
    (htotal : ∀ s v, WellFormedValue c s n v = true → IsFixedArray s v = true →
      ∃ r s', inner s v.addr = .ok r s')
    (s : State) (d : Addr) (flags : Int)
    (hwf : WellFormedObjectDescription c s (WellFormedValue c s n) d = true) :
    ∃ size entries values s',
      s.heap[d]? = some (.BoilerplateDescription size entries) ∧
      ObjectBoilerplate.Create c inner s d flags = .ok s.heap.length s' ∧
      List.Forall₂ (Replaced inner s s.heap.length s') (entries.map Prod.snd) values ∧
      s'.heap[s.heap.length]? = some (.JSObject
        (ObjectBoilerplate.Create.finalMap c flags size)
        (Spec.installPairs c ([], []) ((entries.map Prod.fst).zip values)).1
        (Spec.installPairs c ([], []) ((entries.map Prod.fst).zip values)).2
        (!(Int.land flags c.kFastElements != 0)) (pretenureFor s)
        (if (ObjectBoilerplate.Create.map c flags size).is_dictionary_map then some size
         else none)) := by
  simp only [WellFormedObjectDescription] at hwf
  split at hwf
  · rename_i size entries hd
    simp only [List.all_eq_true, Bool.and_eq_true, Bool.or_eq_true, Bool.not_eq_true',
      Option.isSome_iff_exists, Option.isNone_iff_eq_none] at hwf
    have hwf' : ∀ e ∈ entries.drop 0, WellFormedValue c s n e.2 = true ∧
        (c.debug = true → c.ToArrayIndex e.1 = none → c.AsArrayIndex e.1 = none) := by
      intro e he
      rw [List.drop_zero] at he
      refine ⟨(hwf e he).1, fun hdbg hk => ?_⟩
      rcases (hwf e he).2 with (h | ⟨i, h⟩) | h
      · rw [hdbg] at h; cases h
      · rw [hk] at h; cases h
      · exact h
    have hb : (ObjectBoilerplate.Create.start c s d flags size).heap[s.heap.length]? =
        some (.JSObject (ObjectBoilerplate.Create.map c flags size) [] []
          (!(Int.land flags c.kFastElements != 0)) (pretenureFor s)
          (if (ObjectBoilerplate.Create.map c flags size).is_dictionary_map then
            some size else none)) := by
      simp [ObjectBoilerplate.Create.start]
    obtain ⟨s1, values, hl, hall, hres⟩ :=
      ObjectBoilerplate.Create.loop_objectTotal hinner htotal s.heap.length d s size entries hd
        (le_refl _) entries.length 0 _ _ _ _ _ _ _ (by simp)
        (ObjectBoilerplate.Create.start_extends c s d flags size) hwf' hb
    rw [List.drop_zero] at hall hres
    refine ⟨size, entries, values,
      (if (ObjectBoilerplate.Create.map c flags size).is_dictionary_map &&
          !(Int.land flags c.kHasNullPrototype != 0) then
        JSObject.MigrateSlowToFast c s1 s.heap.length
       else s1), hd, ?_, ?_, ?_⟩
    · rw [ObjectBoilerplate.Create_eq c inner s d flags size entries hd, hl]
      rfl
    · refine hall.imp fun _ _ h => Replaced.keeps_mono ?_ h
      split
      · exact JSObject.MigrateSlowToFast_keeps c s1 s.heap.length
      · exact KeepsExcept.keeps_refl _ _
    · simp only [ObjectBoilerplate.Create.finalMap]
      split
      · simp only [JSObject.MigrateSlowToFast]
        have hres' : (s1.record (.MigrateSlowToFast s.heap.length)).heap[s.heap.length]? = _ :=
          hres
        rw [hres']
        simp only
        exact State.store_heap_self _ _ _ (lt_length_of_getElem? hres')
      · exact hres
  · cases hwf

theorem Extends.of_full_frame {c : Env} {s s' : State} (hf : Frame c s.heap.length s s') :
    Extends s s' := ⟨hf.1, hf.2.1⟩

/-- The function `ArrayBoilerplate::Create` on a description of small-int/object kind whose backing
storage is not copy-on-write: the storage is copied to a new array, in which every
nested-literal marker is replaced by the boilerplate built for it. -/
theorem ArrayBoilerplate.Create_copy {c : Env} {inner : State → Addr → Res Val}
    (hinner : InnerFrame c inner) {n : Nat}
    (htotal : ∀ s v, WellFormedValue c s n v = true → IsFixedArray s v = true →
      ∃ r s', inner s v.addr = .ok r s')
    (s : State) (d : Addr) (flags : Int) (kind : ElementsKind) (cev : Addr)
    (values : List Val)
    (hd : s.heap[d]? = some (.ConstantElementsPair kind cev))
    (hk : IsFastDoubleElementsKind kind = false)
    (hdbg : c.debug = true → IsFastSmiOrObjectElementsKind kind = true)
    (hcev : s.heap[cev]? = some (.FixedArray false values))
    (hwf : ∀ v ∈ values, WellFormedValue c s n v = true) :
    ∃ r s' values',
      ArrayBoilerplate.Create c inner s d flags = .ok r s' ∧
      s'.heap[r]? = some (.JSArray s.heap.length kind values.length (pretenureFor s)) ∧
      s'.heap[s.heap.length]? = some (.FixedArray false values') ∧
      values'.length = values.length ∧
      (∀ (i : Nat) (v : Val), values[i]? = some v →
        ∃ v', values'[i]? = some v' ∧ Replaced inner s s.heap.length s' v v') ∧
      Extends s s' := by
  have hd' : (s.record (.ArrayBoilerplate_Create d flags)).heap[d]? =
      some (.ConstantElementsPair kind cev) := hd
  have hcev' : (s.record (.ArrayBoilerplate_Create d flags)).heap[cev]? =
      some (.FixedArray false values) := hcev
  have hnd : (c.debug && !IsFastSmiOrObjectElementsKind kind) = false := by
    cases hdb : c.debug with
    | false => rfl
    | true => simp [hdbg hdb]
  have hc : ((s.record (.ArrayBoilerplate_Create d flags)).alloc
      (.FixedArray false values)).2.heap[s.heap.length]? = some (.FixedArray false values) := by
    simp [State.alloc, State.record]
  have hext0 : Extends s ((s.record (.ArrayBoilerplate_Create d flags)).alloc
      (.FixedArray false values)).2 := by
    refine ⟨by simp [State.alloc, State.record], fun a ha => ?_⟩
    simp [State.alloc, State.record, List.getElem?_append, ha]
  obtain ⟨s1, cur', hl, hc', hlen', -, hhigh⟩ :=
    ArrayBoilerplate.Create.loop_arrayTotal hinner htotal cev s.heap.length s false values hcev
      (le_refl _) values.length 0 _ false values (by simp) hext0
      (by rw [List.drop_zero]; exact hwf) hc
  obtain ⟨hf, -⟩ := ArrayBoilerplate.Create.loop_arrayFrame hinner _ _ _ _ _ _ _ _ hc hl
  have hext1 : Extends s s1 := hext0.of_frame (le_refl _) hf
  have hclt : s.heap.length < s1.heap.length := lt_length_of_getElem? hc'
  refine ⟨s1.heap.length,
    { s1 with heap := s1.heap ++
        [.JSArray s.heap.length kind (FixedArrayBase.length s1 s.heap.length)
          (pretenureFor s1)] }, cur', ?_, ?_, ?_, hlen', ?_, ?_⟩
  · simp only [ArrayBoilerplate.Create, hd', hk, hnd, hcev']
    simp only [Bool.false_eq_true, if_false]
    have hl' : ArrayBoilerplate.Create.loop inner cev
        ((s.record (.ArrayBoilerplate_Create d flags)).alloc (.FixedArray false values)).1
        values.length 0
        ((s.record (.ArrayBoilerplate_Create d flags)).alloc (.FixedArray false values)).2 =
        .ok () s1 := hl
    rw [hl']
    rfl
  · have hp : pretenureFor s1 = pretenureFor s := by
      have h4 : s1.vector_in_new_space = s.vector_in_new_space := hf.2.2.2.1
      simp [pretenureFor, h4]
    have hlen1 : FixedArrayBase.length s1 s.heap.length = values.length := by
      simp [FixedArrayBase.length, hc', hlen']
    simp [hp, hlen1]
  · simp [List.getElem?_append, hclt, hc']
  · intro i v hv
    have hi : i < values.length := lt_length_of_getElem? hv
    have h2 := hhigh i v (Nat.zero_le _) hv
    by_cases hm : IsFixedArray s v = true
    · rw [if_pos hm] at h2
      obtain ⟨v', s1', s2', h3, h4, hlt, h5, h6⟩ := h2 hi
      refine ⟨v', h3, ?_⟩
      simp only [Replaced, hm, if_true]
      exact ⟨s1', s2', h4, hlt, h5,
        KeepsExcept.keeps_trans h6 (KeepsExcept.of_append _ _ _)⟩
    · rw [if_neg hm] at h2
      refine ⟨v, by rw [h2, hv], ?_⟩
      simp only [Replaced, hm]
      simp
  · refine ⟨by simpa using le_trans hext1.1 (Nat.le_succ _), fun a ha => ?_⟩
    have : a < s1.heap.length := lt_of_lt_of_le ha hext1.1
    simp [List.getElem?_append, this, hext1.2 a ha]

/-- The function `ArrayBoilerplate::Create` returns on every well-formed description. -/
theorem ArrayBoilerplate.Create_arrayTotal {c : Env} {inner : State → Addr → Res Val}
    (hinner : InnerFrame c inner) {n : Nat}
    (htotal : ∀ s v, WellFormedValue c s n v = true → IsFixedArray s v = true →
      ∃ r s', inner s v.addr = .ok r s')
    (s : State) (d : Addr) (flags : Int)
    (hwf : WellFormedArrayDescription c s (WellFormedValue c s n) d = true) :
    ∃ r s', ArrayBoilerplate.Create c inner s d flags = .ok r s' := by
  simp only [WellFormedArrayDescription] at hwf
  split at hwf
  · rename_i kind cev hd
    have hd' : (s.record (.ArrayBoilerplate_Create d flags)).heap[d]? =
        some (.ConstantElementsPair kind cev) := hd
    split at hwf
    · rename_i hk
      split at hwf
      · rename_i values hcev
        have hcev' : (s.record (.ArrayBoilerplate_Create d flags)).heap[cev]? =
            some (.FixedDoubleArray values) := hcev
        simp only [ArrayBoilerplate.Create, hd', hk, if_true, hcev']
        exact ⟨_, _, rfl⟩
      · cases hwf
    · rename_i hk
      simp only [Bool.and_eq_true, Bool.or_eq_true, Bool.not_eq_true'] at hwf
      obtain ⟨hdbg, hwf⟩ := hwf
      have hdbg' : c.debug = true → IsFastSmiOrObjectElementsKind kind = true := by
        intro h
        rcases hdbg with h' | h'
        · rw [h] at h'; cases h'
        · exact h'
      have hnd : (c.debug && !IsFastSmiOrObjectElementsKind kind) = false := by
        cases hdb : c.debug with
        | false => rfl
        | true => simp [hdbg' hdb]
      split at hwf
      · rename_i cow values hcev
        have hcev' : (s.record (.ArrayBoilerplate_Create d flags)).heap[cev]? =
            some (.FixedArray cow values) := hcev
        cases cow with
        | true =>
          simp only [if_true, Bool.or_eq_true, Bool.not_eq_true', List.all_eq_true] at hwf
          have hnm : (c.debug && values.any
              (IsFixedArray (s.record (.ArrayBoilerplate_Create d flags)))) = false := by
            cases hdb : c.debug with
            | false => rfl
            | true =>
              rcases hwf with h | h
              · rw [hdb] at h; cases h
              · simp only [Bool.true_and, List.any_eq_false]
                intro v hv
                have hp := h v hv
                cases v with
                | ref a =>
                  simp only [PlainValue, Bool.and_eq_true, Bool.not_eq_true'] at hp
                  simpa [IsFixedArray, State.record] using hp.2
                | _ => simp [IsFixedArray]
          simp only [ArrayBoilerplate.Create, hd', hk, hnd, hcev', hnm]
          exact ⟨_, _, rfl⟩
        | false =>
          simp only [Bool.false_eq_true, if_false, List.all_eq_true] at hwf
          obtain ⟨r, s', _, h, _⟩ := ArrayBoilerplate.Create_copy hinner htotal s d flags kind
            cev values hd (by simpa using hk) hdbg' hcev hwf
          exact ⟨r, s', h⟩
      · cases hwf
  · cases hwf

/-- The function `InnerCreateBoilerplate` returns on every well-formed nested-literal marker of
depth at most the recursion bound. -/
theorem InnerCreateBoilerplate_total (c : Env) :
    ∀ (n : Nat) (s : State) (v : Val), WellFormedValue c s n v = true →
      IsFixedArray s v = true → ∃ r s', InnerCreateBoilerplate c n s v.addr = .ok r s' := by
  intro n
  induction n with
  | zero =>
    intro s v hwf hm
    cases v with
    | ref a =>
      simp only [WellFormedValue, PlainValue, Bool.and_eq_true, Bool.not_eq_true'] at hwf
      rw [hm] at hwf
      cases hwf.2
    | _ => simp [IsFixedArray] at hm
  | succ n ih =>
    intro s v hwf hm
    cases v with
    | ref a =>
      simp only [WellFormedValue, Bool.and_eq_true, Bool.or_eq_true, Bool.not_eq_true',
        decide_eq_true_eq] at hwf
      obtain ⟨-, hwf⟩ := hwf
      rcases hwf with h | hwf
      · rw [hm] at h; cases h
      · simp only [Val.addr, InnerCreateBoilerplate]
        split at hwf
        · rename_i elements flags he hfl
          split at hwf
          · rename_i hflag
            obtain ⟨r, s', h⟩ := ArrayBoilerplate.Create_arrayTotal
              (InnerCreateBoilerplate_frame c n) ih s elements flags hwf
            simp only [hflag, if_true]
            rw [hflag] at h
            rw [h]
            exact ⟨_, _, rfl⟩
          · rename_i hflag
            obtain ⟨size, entries, values, s', -, h, -⟩ := ObjectBoilerplate.Create_objectTotal
              (InnerCreateBoilerplate_frame c n) ih s elements flags hwf
            simp only [hflag, if_false]
            rw [h]
            exact ⟨_, _, rfl⟩
        · cases hwf
    | _ => simp [IsFixedArray] at hm

theorem storeEntry_lookup {κ : Type} [DecidableEq κ] (k k' : κ) (v : Val)
    (l : List (κ × Val)) :
    (storeEntry k v l).lookup k' = if k' = k then some v else l.lookup k' := by
  induction l with
  | nil =>
    by_cases h : k' = k
    · simp [storeEntry, List.lookup, h]
    · have hb : (k' == k) = false := by simpa using h
      simp [storeEntry, List.lookup, h, hb]
  | cons p rest ih =>
    obtain ⟨k0, v0⟩ := p
    by_cases h0 : k0 = k
    · subst h0
      by_cases h : k' = k0
      · simp [storeEntry, List.lookup, h]
      · have hb : (k' == k0) = false := by simpa using h
        simp [storeEntry, List.lookup, h, hb]
    · by_cases h : k' = k
      · subst h
        have : (k' == k0) = false := by simpa using Ne.symm h0
        simp [storeEntry, List.lookup, h0, this, ih]
      · by_cases h1 : k' = k0
        · subst h1
          simp [storeEntry, List.lookup, h0]
        · have : (k' == k0) = false := by simpa using h1
          simp [storeEntry, List.lookup, h0, this, ih, h]

theorem Spec.installPairs_append (c : Env) (object : List (Val × Val) × List (Nat × Val))
    (pairs : List (Val × Val)) (p : Val × Val) :
    Spec.installPairs c object (pairs ++ [p]) =
      Spec.installPair c (Spec.installPairs c object pairs) p := by
  simp [Spec.installPairs, List.foldl_append]

/-- A later pair with the same key overrides an earlier one: a named property holds
the value of the last pair that has this name. -/
theorem Spec.installPairs_lookup_named (c : Env) (pairs : List (Val × Val)) (name : Val)
    (hname : c.ToArrayIndex name = none) :
    (Spec.installPairs c ([], []) pairs).1.lookup name = pairs.reverse.lookup name := by
  induction pairs using List.reverseRecOn with
  | nil => rfl
  | append_singleton pairs p ih =>
    obtain ⟨k, v⟩ := p
    rw [Spec.installPairs_append, List.reverse_append]
    simp only [List.reverse_cons, List.reverse_nil, List.nil_append, List.singleton_append,
      List.lookup]
    cases hk : c.ToArrayIndex k with
    | some i =>
      have hne : (name == k) = false := by
        have : name ≠ k := fun h => by rw [h, hk] at hname; cases hname
        simpa using this
      simp [Spec.installPair, hk, hne, ih]
    | none =>
      simp only [Spec.installPair, hk, storeEntry_lookup, ih]
      by_cases h : name = k
      · subst h; simp
      · have hne : (name == k) = false := by simpa using h
        simp [h, hne]

/-- A later pair with the same index overrides an earlier one: an indexed element
holds the value of the last pair whose key is this index. -/
theorem Spec.installPairs_lookup_indexed (c : Env) (pairs : List (Val × Val)) (i : Nat) :
    (Spec.installPairs c ([], []) pairs).2.lookup i =
      (Spec.indexedPairs c pairs).reverse.lookup i := by
  induction pairs using List.reverseRecOn with
  | nil => rfl
  | append_singleton pairs p ih =>
    obtain ⟨k, v⟩ := p
    rw [Spec.installPairs_append]
    cases hk : c.ToArrayIndex k with
    | some j =>
      simp only [Spec.installPair, hk, storeEntry_lookup, ih, Spec.indexedPairs,
        List.filterMap_append, List.filterMap_cons, List.filterMap_nil, Option.map_some',
        List.reverse_append, List.reverse_cons, List.reverse_nil, List.nil_append,
        List.singleton_append, List.lookup]
      by_cases h : i = j
      · subst h; simp
      · have hne : (i == j) = false := by simpa using h
        simp [h, hne]
    | none =>
      simp [Spec.installPair, hk, ih, Spec.indexedPairs, List.filterMap_append]

/-- C1: when the feedback slot holds an allocation site, a successful `CreateLiteral`
returns the deep copy of the boilerplate that the site references; the calls it makes
are the read of the slot and the deep copy, so the boilerplate builder is not invoked
and the slot is not written: the vector is unchanged and the slot still holds the
site. -/
theorem materialized_slot_returns_clone (B : Boilerplate) (c : Env) (fuel : Nat) (s : State)
    (literals_index : Int) (description : Addr) (flags : Int) (site : Addr)
    (transition_info result : Val) (s' : State) (hidx : 0 ≤ c.ToSlot literals_index)
    (hslot : s.vector[(c.ToSlot literals_index).toNat]? = some (.ref site))
    (hsite : s.heap[site]? = some (.AllocationSite transition_info))
    (hok : CreateLiteral B c fuel s literals_index description flags = .ok result s') :
    ∃ boilerplate copy,
      transition_info = .ref boilerplate ∧
      c.DeepCopy s.heap boilerplate site (Int.land flags c.kDisableMementos == 0)
        (CreateLiteral.copy_hints c flags) = some (copy, s'.heap) ∧
      result = .ref copy ∧
      s'.vector = s.vector ∧
      s'.vector[(c.ToSlot literals_index).toNat]? = some (.ref site) ∧
      s'.log = s.log ++
        [.FeedbackVector_Get (c.ToSlot literals_index),
         .DeepCopy boilerplate site (Int.land flags c.kDisableMementos == 0)
           (CreateLiteral.copy_hints c flags)] := by
  rw [CreateLiteral_of_site B c fuel s literals_index description flags site
    transition_info hidx hslot hsite] at hok
  cases transition_info with
  | ref boilerplate =>
    simp only [CreateLiteral.copy, JSObject.DeepCopy] at hok
    split at hok
    · rename_i copy heap hcopy
      simp only [Res.ok.injEq] at hok
      obtain ⟨hr, hs⟩ := hok
      subst hr hs
      refine ⟨boilerplate, copy, rfl, hcopy, rfl, rfl, hslot, ?_⟩
      simp [State.record]
    · cases hok
  | _ => cases hok

theorem materialized_slot_returns_clone_witness :
    ∃ result s', CreateLiteral .ObjectBoilerplate sampleEnv 0 sampleState 2 5 0 =
        .ok result s' ∧
      ∃ boilerplate copy,
        Val.ref 6 = .ref boilerplate ∧
        sampleEnv.DeepCopy sampleState.heap boilerplate 7
          (Int.land 0 sampleEnv.kDisableMementos == 0)
          (CreateLiteral.copy_hints sampleEnv 0) = some (copy, s'.heap) ∧
        result = .ref copy ∧
        s'.vector = sampleState.vector ∧
        s'.vector[(2 : Int).toNat]? = some (.ref 7) ∧
        s'.log = sampleState.log ++
          [.FeedbackVector_Get 2,
           .DeepCopy boilerplate 7 (Int.land 0 sampleEnv.kDisableMementos == 0)
             (CreateLiteral.copy_hints sampleEnv 0)] :=
  ⟨_, _, rfl,
    materialized_slot_returns_clone .ObjectBoilerplate sampleEnv 0 sampleState 2 5 0 7 (.ref 6)
      _ _ (by decide) (by decide) (by decide) rfl⟩

/-- C5: for every slot index greater than or equal to the slot count of the feedback
vector, `Runtime_CreateObjectLiteral`, `Runtime_CreateArrayLiteral` and
`Runtime_CreateRegExpLiteral` fail with the fatal invariant violation in the very
state they were entered in: no call is logged (no builder, no regular-expression
engine, no allocation-site creation, no read and no write of the vector), the heap
and the vector are unchanged.  The object and array entry points fail the `CHECK` of
`CreateLiteral`; the regular-expression entry point has no check of its own and fails
in the bounds check of the `get` of the feedback slot store. -/
theorem out_of_range_slot_fails_fatally (c : Env) (fuel : Nat) (s : State) (index : Int)
    (description elements : Addr) (pattern : String) (flags : Int)
    (h : (s.vector.length : Int) ≤ c.ToSlot index) :
    Runtime_CreateObjectLiteral c fuel s index description flags = .fatal s ∧
    Runtime_CreateArrayLiteral c fuel s index elements flags = .fatal s ∧
    Runtime_CreateRegExpLiteral c s index pattern flags = .fatal s :=
  ⟨Runtime_CreateObjectLiteral_out_of_range _ _ _ _ _ _ h,
    Runtime_CreateArrayLiteral_out_of_range _ _ _ _ _ _ h,
    Runtime_CreateRegExpLiteral_out_of_range _ _ _ _ _ h⟩

theorem out_of_range_slot_fails_fatally_witness :
    (sampleState.vector.length : Int) ≤ sampleEnv.ToSlot 4 ∧
    sampleState.heap[5]? = some (.BoilerplateDescription 2
      [(.str "a", .smi 1), (.smi 0, .uninitialized), (.str "b", .ref 2),
       (.str "a", .smi 5)]) ∧
    sampleState.heap[4]? = some (.ConstantElementsPair .FAST_ELEMENTS 3) ∧
    Runtime_CreateObjectLiteral sampleEnv 2 sampleState 4 5 0 = .fatal sampleState ∧
    Runtime_CreateArrayLiteral sampleEnv 2 sampleState 4 4 0 = .fatal sampleState ∧
    Runtime_CreateRegExpLiteral sampleEnv sampleState 4 "ab" 0 = .fatal sampleState :=
  ⟨by decide, by decide, by decide,
    out_of_range_slot_fails_fatally sampleEnv 2 sampleState 4 5 4 "ab" 0 (by decide)⟩

/-- C6: on a slot that holds a regular-expression boilerplate,
`Runtime_CreateRegExpLiteral` reads the slot, leaves the handle `boilerplate` empty
and passes it to `JSRegExp::Copy`: no regular expression is returned or allocated
(the regular-expression engine is not called and the slot is not written). -/
theorem regexp_literal_cached_slot_copies_empty_handle :
    Runtime_CreateRegExpLiteral sampleEnv sampleState 3 "ab" 0 =
      .undefined (sampleState.record (.FeedbackVector_Get 3)) ∧
    sampleState.vector[3]? = some (.ref 8) ∧
    sampleState.heap[8]? = some (.JSRegExp "ab" 0) ∧
    JSRegExp.Copy sampleState (some (.ref 8)) =
      .ok (.ref 11)
        { sampleState with
          heap := sampleState.heap ++ [.JSRegExp "ab" 0],
          log := [.JSRegExp_Copy 8] } :=
  ⟨Runtime_CreateRegExpLiteral_of_boilerplate _ _ _ _ _ (.ref 8) (by decide) (by decide)
      (by decide),
    by decide, by decide, by decide⟩

/-- A successful `CreateLiteral` on a slot that holds the sentinel zero. -/
theorem CreateLiteral_uninitialized_ok {B : Boilerplate} {c : Env} {fuel : Nat}
    {s : State} {literals_index : Int} {description : Addr} {flags : Int} {result : Val}
    {s' : State} (hidx : 0 ≤ c.ToSlot literals_index)
    (hslot : s.vector[(c.ToSlot literals_index).toNat]? = some (.smi 0))
    (hok : CreateLiteral B c fuel s literals_index description flags = .ok result s') :
    ∃ boilerplate s1 evs,
      B.Create c (InnerCreateBoilerplate c fuel)
        (s.record (.FeedbackVector_Get (c.ToSlot literals_index))) description flags =
          .ok boilerplate s1 ∧
      s.heap.length ≤ boilerplate ∧ boilerplate < s1.heap.length ∧
      result = .ref boilerplate ∧
      s'.vector = s.vector.set (c.ToSlot literals_index).toNat (.smi 1) ∧
      (if CreateLiteral.copy_hints c flags = .kNoHints then
        c.DeepWalk .DeprecationUpdateContext s1.heap boilerplate = some s'.heap
       else s'.heap = s1.heap) ∧
      s'.log = s.log ++ evs ∧
      ∀ e ∈ evs, e = .FeedbackVector_Get (c.ToSlot literals_index) ∨
        BuilderEvent c s.heap.length e ∨
        e = .FeedbackVector_Set (c.ToSlot literals_index) (.smi 1) ∨
        e = .DeepWalk boilerplate .DeprecationUpdateContext := by
  rw [CreateLiteral_of_uninitialized B c fuel s literals_index description flags hidx hslot]
    at hok
  cases hb : B.Create c (InnerCreateBoilerplate c fuel)
      (s.record (.FeedbackVector_Get (c.ToSlot literals_index))) description flags with
  | ok boilerplate s1 =>
    rw [hb] at hok
    simp only [Res.bind] at hok
    obtain ⟨hf, hlo, hhi⟩ := Boilerplate.Create_anyFrame hb
    obtain ⟨-, -, hvec, -, evs, hlog, hevs⟩ := hf
    have hvec' : s1.vector = s.vector := hvec
    have hlog' : s1.log = s.log ++ .FeedbackVector_Get (c.ToSlot literals_index) :: evs := by
      rw [hlog]; simp [State.record]
    have hevs' : ∀ e ∈ evs, BuilderEvent c s.heap.length e := hevs
    have hlo' : s.heap.length ≤ boilerplate := hlo
    by_cases hh : CreateLiteral.copy_hints c flags = .kNoHints
    · rw [if_pos hh] at hok
      cases hw : c.DeepWalk .DeprecationUpdateContext s1.heap boilerplate with
      | some heap =>
        simp only [JSObject.DeepWalk, State.record, PreInitializeLiteralSite,
          FeedbackVector.Set, hw, Res.bind, Res.ok.injEq] at hok
        obtain ⟨hr, hs⟩ := hok
        subst hr hs
        refine ⟨boilerplate, s1, .FeedbackVector_Get (c.ToSlot literals_index) :: evs ++
          [.FeedbackVector_Set (c.ToSlot literals_index) (.smi 1),
           .DeepWalk boilerplate .DeprecationUpdateContext], rfl, hlo', hhi, rfl, ?_, ?_, ?_, ?_⟩
        · simp [hvec']
        · rw [if_pos hh]
          exact hw
        · simp [hlog']
        · intro e he
          simp only [List.cons_append, List.mem_cons, List.mem_append, List.mem_singleton,
            List.not_mem_nil, or_false] at he
          rcases he with h | h | h | h
          · exact Or.inl h
          · exact Or.inr (Or.inl (hevs' e h))
          · exact Or.inr (Or.inr (Or.inl h))
          · exact Or.inr (Or.inr (Or.inr h))
      | none =>
        simp [JSObject.DeepWalk, State.record, PreInitializeLiteralSite,
          FeedbackVector.Set, hw, Res.bind] at hok
    · rw [if_neg hh] at hok
      simp only [Res.ok.injEq] at hok
      obtain ⟨hr, hs⟩ := hok
      subst hr hs
      refine ⟨boilerplate, s1, .FeedbackVector_Get (c.ToSlot literals_index) :: evs ++
        [.FeedbackVector_Set (c.ToSlot literals_index) (.smi 1)], rfl, hlo', hhi, rfl, ?_, ?_, ?_, ?_⟩
      · simp [PreInitializeLiteralSite, FeedbackVector.Set, hvec']
      · rw [if_neg hh]
        rfl
      · simp [PreInitializeLiteralSite, FeedbackVector.Set, hlog']
      · intro e he
        simp only [List.cons_append, List.mem_cons, List.mem_append, List.mem_singleton,
          List.not_mem_nil, or_false] at he
        rcases he with h | h | h
        · exact Or.inl h
        · exact Or.inr (Or.inl (hevs' e h))
        · exact Or.inr (Or.inr (Or.inl h))
  | exception s1 => rw [hb] at hok; simp [Res.bind] at hok
  | fatal s1 => rw [hb] at hok; simp [Res.bind] at hok
  | undefined s1 => rw [hb] at hok; simp [Res.bind] at hok
  | outOfFuel => rw [hb] at hok; simp [Res.bind] at hok

/-- A successful `CreateLiteral` on a slot that holds a Smi other than the sentinel
zero. -/
theorem CreateLiteral_preinitialized_ok {B : Boilerplate} {c : Env} {fuel : Nat}
    {s : State} {literals_index : Int} {description : Addr} {flags : Int} {n : Int}
    {result : Val} {s' : State} (hn : n ≠ 0) (hidx : 0 ≤ c.ToSlot literals_index)
    (hslot : s.vector[(c.ToSlot literals_index).toNat]? = some (.smi n))
    (hok : CreateLiteral B c fuel s literals_index description flags = .ok result s') :
    ∃ boilerplate s1 walked copy,
      B.Create c (InnerCreateBoilerplate c fuel)
        (s.record (.FeedbackVector_Get (c.ToSlot literals_index))) description flags =
          .ok boilerplate s1 ∧
      s.heap.length ≤ boilerplate ∧ boilerplate < s1.heap.length ∧
      c.DeepWalk .AllocationSiteCreationContext (s1.heap ++ [.AllocationSite (.smi 0)])
        boilerplate = some walked ∧
      c.DeepCopy (walked.set s1.heap.length (.AllocationSite (.ref boilerplate))) boilerplate
        s1.heap.length (Int.land flags c.kDisableMementos == 0)
        (CreateLiteral.copy_hints c flags) = some (copy, s'.heap) ∧
      result = .ref copy ∧
      s'.vector = s.vector.set (c.ToSlot literals_index).toNat (.ref s1.heap.length) ∧
      s'.log = s1.log ++
        [.NewAllocationSite s1.heap.length,
         .DeepWalk boilerplate .AllocationSiteCreationContext,
         .FeedbackVector_Set (c.ToSlot literals_index) (.ref s1.heap.length),
         .DeepCopy boilerplate s1.heap.length (Int.land flags c.kDisableMementos == 0)
           (CreateLiteral.copy_hints c flags)] := by
  rw [CreateLiteral_of_preinitialized B c fuel s literals_index description flags n hn hidx
    hslot] at hok
  cases hb : B.Create c (InnerCreateBoilerplate c fuel)
      (s.record (.FeedbackVector_Get (c.ToSlot literals_index))) description flags with
  | ok boilerplate s1 =>
    rw [hb] at hok
    simp only [Res.bind] at hok
    obtain ⟨hf, hlo, hhi⟩ := Boilerplate.Create_anyFrame hb
    have hvec' : s1.vector = s.vector := hf.2.2.1
    have hlo' : s.heap.length ≤ boilerplate := hlo
    cases hw : c.DeepWalk .AllocationSiteCreationContext
        (s1.heap ++ [.AllocationSite (.smi 0)]) boilerplate with
    | some walked =>
      cases hc : c.DeepCopy (walked.set s1.heap.length (.AllocationSite (.ref boilerplate)))
          boilerplate s1.heap.length (Int.land flags c.kDisableMementos == 0)
          (CreateLiteral.copy_hints c flags) with
      | some p =>
        obtain ⟨copy, heap⟩ := p
        simp only [JSObject.DeepWalk, AllocationSiteCreationContext.EnterNewScope,
          State.alloc, State.record, hw, Res.bind, CreateLiteral.copy, JSObject.DeepCopy,
          AllocationSiteCreationContext.ExitScope, FeedbackVector.Set, State.store, hc,
          Res.ok.injEq] at hok
        obtain ⟨hr, hs⟩ := hok
        subst hr hs
        refine ⟨boilerplate, s1, walked, copy, rfl, hlo', hhi, hw, hc, rfl, ?_, ?_⟩
        · simp [hvec']
        · simp
      | none =>
        simp [JSObject.DeepWalk, AllocationSiteCreationContext.EnterNewScope,
          State.alloc, State.record, hw, Res.bind, CreateLiteral.copy, JSObject.DeepCopy,
          AllocationSiteCreationContext.ExitScope, FeedbackVector.Set, State.store, hc]
          at hok
    | none =>
      simp [JSObject.DeepWalk, AllocationSiteCreationContext.EnterNewScope,
        State.alloc, State.record, hw, Res.bind] at hok
  | exception s1 => rw [hb] at hok; simp [Res.bind] at hok
  | fatal s1 => rw [hb] at hok; simp [Res.bind] at hok
  | undefined s1 => rw [hb] at hok; simp [Res.bind] at hok
  | outOfFuel => rw [hb] at hok; simp [Res.bind] at hok

theorem sampleEnv_DeepWalk (ctx : WalkContext) (h : List HeapObject) (b : Addr)
    (h' : List HeapObject) (hw : sampleEnv.DeepWalk ctx h b = some h') :
    h.length ≤ h'.length := by
  simp only [sampleEnv, Option.some.injEq] at hw
  subst hw
  exact le_refl _

theorem sampleEnv_DeepCopy (h : List HeapObject) (b site : Addr) (m : Bool)
    (hints : DeepCopyHints) (copy : Addr) (h' : List HeapObject)
    (hc : sampleEnv.DeepCopy h b site m hints = some (copy, h')) : h.length ≤ copy := by
  simp only [sampleEnv] at hc
  split at hc
  · simp only [Option.some.injEq, Prod.mk.injEq] at hc
    exact le_of_eq hc.1
  · cases hc

/-- C2: when the feedback slot holds the pre-initialization marker `Smi 1`, a
successful `CreateLiteral` runs the builder, which returns a newly allocated
boilerplate (an address of the heap the builder leaves that was not in the heap it
was entered with); it creates an allocation site, another object than the boilerplate, walks the boilerplate with the
allocation-site creation context, makes the site wrap the boilerplate, stores the site
in the slot (which then holds a boilerplate), and returns the deep copy of the new
boilerplate, which is another object than the boilerplate.  Deep walk and deep copy
are collaborators: the walk is assumed never to shrink the heap and the copy to be a
newly allocated object. -/
theorem preinitialized_slot_creates_site (B : Boilerplate) (c : Env) (fuel : Nat) (s : State)
    (literals_index : Int) (description : Addr) (flags : Int) (result : Val) (s' : State)
    (hwalk : ∀ ctx h b h', c.DeepWalk ctx h b = some h' → h.length ≤ h'.length)
    (hclone : ∀ h b site m hints copy h',
      c.DeepCopy h b site m hints = some (copy, h') → h.length ≤ copy)
    (hidx : 0 ≤ c.ToSlot literals_index)
    (hslot : s.vector[(c.ToSlot literals_index).toNat]? = some (.smi 1))
    (hok : CreateLiteral B c fuel s literals_index description flags = .ok result s') :
    ∃ boilerplate s1 site walked heap copy,
      B.Create c (InnerCreateBoilerplate c fuel)
        (s.record (.FeedbackVector_Get (c.ToSlot literals_index))) description flags =
          .ok boilerplate s1 ∧
      s.heap.length ≤ boilerplate ∧
      boilerplate < s1.heap.length ∧
      site = s1.heap.length ∧
      site ≠ boilerplate ∧
      c.DeepWalk .AllocationSiteCreationContext (s1.heap ++ [.AllocationSite (.smi 0)])
        boilerplate = some walked ∧
      heap = walked.set site (.AllocationSite (.ref boilerplate)) ∧
      heap[site]? = some (.AllocationSite (.ref boilerplate)) ∧
      s'.vector[(c.ToSlot literals_index).toNat]? = some (.ref site) ∧
      HasBoilerplate (.ref site) = true ∧
      c.DeepCopy heap boilerplate site (Int.land flags c.kDisableMementos == 0)
        (CreateLiteral.copy_hints c flags) = some (copy, s'.heap) ∧
      result = .ref copy ∧
      copy ≠ boilerplate ∧
      s'.log = s1.log ++
        [.NewAllocationSite site,
         .DeepWalk boilerplate .AllocationSiteCreationContext,
         .FeedbackVector_Set (c.ToSlot literals_index) (.ref site),
         .DeepCopy boilerplate site (Int.land flags c.kDisableMementos == 0)
           (CreateLiteral.copy_hints c flags)] := by
  obtain ⟨boilerplate, s1, walked, copy, hb, hlo, hhi, hw, hc, hr, hvec, hlog⟩ :=
    CreateLiteral_preinitialized_ok (n := 1) (by decide) hidx hslot hok
  have hwl : s1.heap.length < walked.length := by
    have := hwalk _ _ _ _ hw
    simp only [List.length_append, List.length_singleton] at this
    omega
  have hcl := hclone _ _ _ _ _ _ _ hc
  simp only [List.length_set] at hcl
  refine ⟨boilerplate, s1, s1.heap.length, walked, _, copy, hb, hlo, hhi, rfl,
    Nat.ne_of_gt hhi, hw, rfl, ?_, ?_, rfl, hc, hr, ?_, hlog⟩
  · simp [List.getElem?_set, hwl]
  · rw [hvec]
    simp [List.getElem?_set, lt_length_of_getElem? hslot]
  · exact Nat.ne_of_gt (lt_of_lt_of_le (lt_trans hhi hwl) hcl)

theorem preinitialized_slot_creates_site_witness :
    ∃ result s', CreateLiteral .ObjectBoilerplate sampleEnv 2 sampleState 1 5 0 =
        .ok result s' ∧
      ∃ boilerplate s1 site walked heap copy,
        Boilerplate.ObjectBoilerplate.Create sampleEnv (InnerCreateBoilerplate sampleEnv 2)
          (sampleState.record (.FeedbackVector_Get 1)) 5 0 = .ok boilerplate s1 ∧
        sampleState.heap.length ≤ boilerplate ∧
        boilerplate < s1.heap.length ∧
        site = s1.heap.length ∧
        site ≠ boilerplate ∧
        sampleEnv.DeepWalk .AllocationSiteCreationContext
          (s1.heap ++ [.AllocationSite (.smi 0)]) boilerplate = some walked ∧
        heap = walked.set site (.AllocationSite (.ref boilerplate)) ∧
        heap[site]? = some (.AllocationSite (.ref boilerplate)) ∧
        s'.vector[(1 : Int).toNat]? = some (.ref site) ∧
        HasBoilerplate (.ref site) = true ∧
        sampleEnv.DeepCopy heap boilerplate site (Int.land 0 sampleEnv.kDisableMementos == 0)
          (CreateLiteral.copy_hints sampleEnv 0) = some (copy, s'.heap) ∧
        result = .ref copy ∧
        copy ≠ boilerplate ∧
        s'.log = s1.log ++
          [.NewAllocationSite site,
           .DeepWalk boilerplate .AllocationSiteCreationContext,
           .FeedbackVector_Set 1 (.ref site),
           .DeepCopy boilerplate site (Int.land 0 sampleEnv.kDisableMementos == 0)
             (CreateLiteral.copy_hints sampleEnv 0)] :=
  ⟨_, _, rfl,
    preinitialized_slot_creates_site .ObjectBoilerplate sampleEnv 2 sampleState 1 5 0 _ _
      sampleEnv_DeepWalk sampleEnv_DeepCopy (by decide) (by decide) rfl⟩

/-- C3: for a literal with tracking disabled evaluated on an uninitialized slot, a
successful `CreateLiteral` returns the very object that the builder returned, the slot
then holds the pre-initialization marker `Smi 1`, and among the calls made there is
neither the creation of an allocation site nor a deep copy.  A second successful
evaluation on that slot runs the builder again; the second boilerplate is allocated
after the first evaluation ended, so it differs from the first value, and the value
returned is the deep copy (made with mementos disabled) of that second boilerplate.
Deep walk and deep copy are collaborators: the walk is assumed never to shrink the
heap and the copy to be a newly allocated object. -/
theorem tracking_disabled_first_and_second_evaluation (B : Boilerplate) (c : Env) (fuel : Nat)
    (s : State) (literals_index : Int) (description : Addr) (flags : Int)
    (first : Val) (s1 : State) (second : Val) (s2 : State)
    (hwalk : ∀ ctx h b h', c.DeepWalk ctx h b = some h' → h.length ≤ h'.length)
    (hclone : ∀ h b site m hints copy h',
      c.DeepCopy h b site m hints = some (copy, h') → h.length ≤ copy)
    (hdisabled : Int.land flags c.kDisableMementos ≠ 0)
    (hidx : 0 ≤ c.ToSlot literals_index)
    (hslot : s.vector[(c.ToSlot literals_index).toNat]? = some (.smi 0))
    (hfirst : CreateLiteral B c fuel s literals_index description flags = .ok first s1)
    (hsecond : CreateLiteral B c fuel s1 literals_index description flags = .ok second s2) :
    ∃ boilerplate1 t1 evs boilerplate2 t2 heap copy,
      B.Create c (InnerCreateBoilerplate c fuel)
        (s.record (.FeedbackVector_Get (c.ToSlot literals_index))) description flags =
          .ok boilerplate1 t1 ∧
      first = .ref boilerplate1 ∧
      s1.vector[(c.ToSlot literals_index).toNat]? = some (.smi 1) ∧
      s1.log = s.log ++ evs ∧
      (∀ site, Event.NewAllocationSite site ∉ evs) ∧
      (∀ b site m hints, Event.DeepCopy b site m hints ∉ evs) ∧
      B.Create c (InnerCreateBoilerplate c fuel)
        (s1.record (.FeedbackVector_Get (c.ToSlot literals_index))) description flags =
          .ok boilerplate2 t2 ∧
      boilerplate1 < s1.heap.length ∧
      s1.heap.length ≤ boilerplate2 ∧
      c.DeepCopy heap boilerplate2 t2.heap.length false (CreateLiteral.copy_hints c flags) =
        some (copy, s2.heap) ∧
      second = .ref copy ∧
      copy ≠ boilerplate1 ∧
      copy ≠ boilerplate2 := by
  obtain ⟨b1, t1, evs, hb1, -, hhi1, hr1, hvec1, hheap1, hlog1, hevs1⟩ :=
    CreateLiteral_uninitialized_ok hidx hslot hfirst
  have hslot1 : s1.vector[(c.ToSlot literals_index).toNat]? = some (.smi 1) := by
    rw [hvec1]
    simp [List.getElem?_set, lt_length_of_getElem? hslot]
  have hlen1 : t1.heap.length ≤ s1.heap.length := by
    split at hheap1
    · exact hwalk _ _ _ _ hheap1
    · rw [hheap1]
  obtain ⟨b2, t2, walked, copy, hb2, hlo2, hhi2, hw2, hc2, hr2, -, -⟩ :=
    CreateLiteral_preinitialized_ok (n := 1) (by decide) hidx hslot1 hsecond
  have hm : (Int.land flags c.kDisableMementos == 0) = false := by
    simpa using hdisabled
  rw [hm] at hc2
  have hwl : t2.heap.length < walked.length := by
    have := hwalk _ _ _ _ hw2
    simp only [List.length_append, List.length_singleton] at this
    omega
  have hcl := hclone _ _ _ _ _ _ _ hc2
  simp only [List.length_set] at hcl
  have h12 : b1 < b2 := lt_of_lt_of_le (lt_of_lt_of_le hhi1 hlen1) hlo2
  have h2c : b2 < copy := lt_of_lt_of_le (lt_trans hhi2 hwl) hcl
  refine ⟨b1, t1, evs, b2, t2, _, copy, hb1, hr1, hslot1, hlog1, ?_, ?_, hb2,
    lt_of_lt_of_le hhi1 hlen1, hlo2, hc2, hr2, Nat.ne_of_gt (lt_trans h12 h2c),
    Nat.ne_of_gt h2c⟩
  · intro site hmem
    rcases hevs1 _ hmem with h | h | h | h
    · cases h
    · exact h
    · cases h
    · cases h
  · intro b site m hints hmem
    rcases hevs1 _ hmem with h | h | h | h
    · cases h
    · exact h
    · cases h
    · cases h

theorem tracking_disabled_first_and_second_evaluation_witness :
    ∃ first s1 second s2,
      CreateLiteral .ArrayBoilerplate sampleEnv 2 sampleState 0 4 4 = .ok first s1 ∧
      CreateLiteral .ArrayBoilerplate sampleEnv 2 s1 0 4 4 = .ok second s2 ∧
      ∃ boilerplate1 t1 evs boilerplate2 t2 heap copy,
        Boilerplate.ArrayBoilerplate.Create sampleEnv (InnerCreateBoilerplate sampleEnv 2)
          (sampleState.record (.FeedbackVector_Get 0)) 4 4 = .ok boilerplate1 t1 ∧
        first = .ref boilerplate1 ∧
        s1.vector[(0 : Int).toNat]? = some (.smi 1) ∧
        s1.log = sampleState.log ++ evs ∧
        (∀ site, Event.NewAllocationSite site ∉ evs) ∧
        (∀ b site m hints, Event.DeepCopy b site m hints ∉ evs) ∧
        Boilerplate.ArrayBoilerplate.Create sampleEnv (InnerCreateBoilerplate sampleEnv 2)
          (s1.record (.FeedbackVector_Get 0)) 4 4 = .ok boilerplate2 t2 ∧
        boilerplate1 < s1.heap.length ∧
        s1.heap.length ≤ boilerplate2 ∧
        sampleEnv.DeepCopy heap boilerplate2 t2.heap.length false
          (CreateLiteral.copy_hints sampleEnv 4) = some (copy, s2.heap) ∧
        second = .ref copy ∧
        copy ≠ boilerplate1 ∧
        copy ≠ boilerplate2 :=
  ⟨_, _, _, _, rfl, rfl,
    tracking_disabled_first_and_second_evaluation .ArrayBoilerplate sampleEnv 2 sampleState 0 4 4 _ _ _ _
      sampleEnv_DeepWalk sampleEnv_DeepCopy (by decide) (by decide) (by decide) rfl rfl⟩

/-- C4 (as the code behaves): for a literal with tracking enabled evaluated on an
uninitialized slot, a successful first `CreateLiteral` runs the builder, which returns
a newly allocated boilerplate (an address of the heap the builder leaves that was not
in the heap it was entered with), and returns that boilerplate itself, not a clone; the
slot then holds the pre-initialization marker `Smi 1`, which is neither the sentinel
zero nor a boilerplate; among the calls made there is no creation of an allocation
site, no walk with the allocation-site creation context and no deep copy.  It is the
next successful evaluation that runs the builder again, which returns a second
boilerplate, allocated after the first evaluation ended; it creates the allocation
site, another object than the boilerplate,
walks the new boilerplate with the allocation-site creation context, makes the site
wrap it, stores the site in the slot (which then holds a boilerplate) and returns the
deep copy (made with mementos enabled) of that boilerplate, another object than the
boilerplate.  Deep walk and deep copy are collaborators: the walk is assumed never to
shrink the heap and the copy to be a newly allocated object. -/
theorem uninitialized_slot_returns_boilerplate (B : Boilerplate) (c : Env)
    (fuel : Nat) (s : State) (literals_index : Int) (description : Addr) (flags : Int)
    (first : Val) (s1 : State) (second : Val) (s2 : State)
    (hwalk : ∀ ctx h b h', c.DeepWalk ctx h b = some h' → h.length ≤ h'.length)
    (hclone : ∀ h b site m hints copy h',
      c.DeepCopy h b site m hints = some (copy, h') → h.length ≤ copy)
    (henabled : Int.land flags c.kDisableMementos = 0)
    (hidx : 0 ≤ c.ToSlot literals_index)
    (hslot : s.vector[(c.ToSlot literals_index).toNat]? = some (.smi 0))
    (hfirst : CreateLiteral B c fuel s literals_index description flags = .ok first s1)
    (hsecond : CreateLiteral B c fuel s1 literals_index description flags = .ok second s2) :
    ∃ boilerplate1 t1 evs boilerplate2 t2 site walked heap copy,
      B.Create c (InnerCreateBoilerplate c fuel)
        (s.record (.FeedbackVector_Get (c.ToSlot literals_index))) description flags =
          .ok boilerplate1 t1 ∧
      s.heap.length ≤ boilerplate1 ∧
      boilerplate1 < t1.heap.length ∧
      first = .ref boilerplate1 ∧
      s1.vector[(c.ToSlot literals_index).toNat]? = some (.smi 1) ∧
      HasBoilerplate (.smi 1) = false ∧
      IsUninitializedLiteralSite (.smi 1) = false ∧
      s1.log = s.log ++ evs ∧
      (∀ site, Event.NewAllocationSite site ∉ evs) ∧
      (∀ b, Event.DeepWalk b .AllocationSiteCreationContext ∉ evs) ∧
      (∀ b site m hints, Event.DeepCopy b site m hints ∉ evs) ∧
      B.Create c (InnerCreateBoilerplate c fuel)
        (s1.record (.FeedbackVector_Get (c.ToSlot literals_index))) description flags =
          .ok boilerplate2 t2 ∧
      s1.heap.length ≤ boilerplate2 ∧
      boilerplate2 < t2.heap.length ∧
      site = t2.heap.length ∧
      site ≠ boilerplate2 ∧
      c.DeepWalk .AllocationSiteCreationContext (t2.heap ++ [.AllocationSite (.smi 0)])
        boilerplate2 = some walked ∧
      heap = walked.set site (.AllocationSite (.ref boilerplate2)) ∧
      heap[site]? = some (.AllocationSite (.ref boilerplate2)) ∧
      s2.vector[(c.ToSlot literals_index).toNat]? = some (.ref site) ∧
      HasBoilerplate (.ref site) = true ∧
      c.DeepCopy heap boilerplate2 site true (CreateLiteral.copy_hints c flags) =
        some (copy, s2.heap) ∧
      second = .ref copy ∧
      copy ≠ boilerplate2 := by
  obtain ⟨b1, t1, evs, hb1, hlo1, hhi1, hr1, hvec1, -, hlog1, hevs1⟩ :=
    CreateLiteral_uninitialized_ok hidx hslot hfirst
  have hslot1 : s1.vector[(c.ToSlot literals_index).toNat]? = some (.smi 1) := by
    rw [hvec1]
    simp [List.getElem?_set, lt_length_of_getElem? hslot]
  obtain ⟨b2, t2, walked, copy, hb2, hlo2, hhi2, hw2, hc2, hr2, hvec2, -⟩ :=
    CreateLiteral_preinitialized_ok (n := 1) (by decide) hidx hslot1 hsecond
  have hm : (Int.land flags c.kDisableMementos == 0) = true := by
    simpa using henabled
  rw [hm] at hc2
  have hwl : t2.heap.length < walked.length := by
    have := hwalk _ _ _ _ hw2
    simp only [List.length_append, List.length_singleton] at this
    omega
  have hcl := hclone _ _ _ _ _ _ _ hc2
  simp only [List.length_set] at hcl
  refine ⟨b1, t1, evs, b2, t2, t2.heap.length, walked, _, copy, hb1, hlo1, hhi1, hr1, hslot1,
    rfl, rfl, hlog1, ?_, ?_, ?_, hb2, hlo2, hhi2, rfl, Nat.ne_of_gt hhi2, hw2, rfl, ?_, ?_,
    rfl, hc2, hr2,
    Nat.ne_of_gt (lt_of_lt_of_le (lt_trans hhi2 hwl) hcl)⟩
  · intro site hmem
    rcases hevs1 _ hmem with h | h | h | h
    · cases h
    · exact h
    · cases h
    · cases h
  · intro b hmem
    rcases hevs1 _ hmem with h | h | h | h
    · cases h
    · exact h
    · cases h
    · cases h
  · intro b site m hints hmem
    rcases hevs1 _ hmem with h | h | h | h
    · cases h
    · exact h
    · cases h
    · cases h
  · simp [List.getElem?_set, hwl]
  · rw [hvec2]
    simp [List.getElem?_set, lt_length_of_getElem? hslot1]

theorem uninitialized_slot_returns_boilerplate_witness :
    ∃ first s1 second s2,
      CreateLiteral .ObjectBoilerplate sampleEnv 2 sampleState 0 5 0 = .ok first s1 ∧
      CreateLiteral .ObjectBoilerplate sampleEnv 2 s1 0 5 0 = .ok second s2 ∧
      ∃ boilerplate1 t1 evs boilerplate2 t2 site walked heap copy,
        Boilerplate.ObjectBoilerplate.Create sampleEnv (InnerCreateBoilerplate sampleEnv 2)
          (sampleState.record (.FeedbackVector_Get 0)) 5 0 = .ok boilerplate1 t1 ∧
        sampleState.heap.length ≤ boilerplate1 ∧
        boilerplate1 < t1.heap.length ∧
        first = .ref boilerplate1 ∧
        s1.vector[(0 : Int).toNat]? = some (.smi 1) ∧
        HasBoilerplate (.smi 1) = false ∧
        IsUninitializedLiteralSite (.smi 1) = false ∧
        s1.log = sampleState.log ++ evs ∧
        (∀ site, Event.NewAllocationSite site ∉ evs) ∧
        (∀ b, Event.DeepWalk b .AllocationSiteCreationContext ∉ evs) ∧
        (∀ b site m hints, Event.DeepCopy b site m hints ∉ evs) ∧
        Boilerplate.ObjectBoilerplate.Create sampleEnv (InnerCreateBoilerplate sampleEnv 2)
          (s1.record (.FeedbackVector_Get 0)) 5 0 = .ok boilerplate2 t2 ∧
        s1.heap.length ≤ boilerplate2 ∧
        boilerplate2 < t2.heap.length ∧
        site = t2.heap.length ∧
        site ≠ boilerplate2 ∧
        sampleEnv.DeepWalk .AllocationSiteCreationContext
          (t2.heap ++ [.AllocationSite (.smi 0)]) boilerplate2 = some walked ∧
        heap = walked.set site (.AllocationSite (.ref boilerplate2)) ∧
        heap[site]? = some (.AllocationSite (.ref boilerplate2)) ∧
        s2.vector[(0 : Int).toNat]? = some (.ref site) ∧
        HasBoilerplate (.ref site) = true ∧
        sampleEnv.DeepCopy heap boilerplate2 site true (CreateLiteral.copy_hints sampleEnv 0) =
          some (copy, s2.heap) ∧
        second = .ref copy ∧
        copy ≠ boilerplate2 :=
  ⟨_, _, _, _, rfl, rfl,
    uninitialized_slot_returns_boilerplate .ObjectBoilerplate sampleEnv 2 sampleState 0 5 0
      _ _ _ _ sampleEnv_DeepWalk sampleEnv_DeepCopy (by decide) (by decide) (by decide) rfl
      rfl⟩

/-- C4 (counterexample): a literal with tracking enabled (flags 0) is evaluated on the
uninitialized slot 0.  The value returned is the boilerplate that the builder returned
(address 11), not a clone; the slot then holds `Smi 1`, not an allocation site; the
two objects allocated are the boilerplate and its nested array, no allocation site;
and the calls made include no creation of an allocation site and no deep copy. -/
theorem tracking_enabled_first_evaluation_not_materialized :
    Int.land 0 sampleEnv.kDisableMementos = 0 ∧
    sampleState.vector[0]? = some (.smi 0) ∧
    (Boilerplate.ObjectBoilerplate.Create sampleEnv (InnerCreateBoilerplate sampleEnv 2)
      (sampleState.record (.FeedbackVector_Get 0)) 5 0).value? = some 11 ∧
    (CreateLiteral .ObjectBoilerplate sampleEnv 2 sampleState 0 5 0).value? =
      some (.ref 11) ∧
    (CreateLiteral .ObjectBoilerplate sampleEnv 2 sampleState 0 5 0).state?.map
      (fun s => s.vector) = some [.smi 1, .smi 1, .ref 7, .ref 8] ∧
    (CreateLiteral .ObjectBoilerplate sampleEnv 2 sampleState 0 5 0).state?.map
      (fun s => s.heap.drop 11) =
      some [.JSObject
              { is_dictionary_map := false, prototype := some 0, unused_property_fields := 0 }
              [(.str "a", .smi 5), (.str "b", .ref 12)] [(0, .smi 0)] true .NOT_TENURED none,
            .JSArray 0 .FAST_SMI_ELEMENTS 1 .NOT_TENURED] ∧
    (CreateLiteral .ObjectBoilerplate sampleEnv 2 sampleState 0 5 0).state?.map
      (fun s => s.log) =
      some [.FeedbackVector_Get 0, .ObjectBoilerplate_Create 5 0,
            .ObjectLiteralMapFromCache 0 2, .ArrayBoilerplate_Create 1 (-1),
            .FeedbackVector_Set 0 (.smi 1),
            .DeepWalk 11 .DeprecationUpdateContext] := by
  decide

/-- What a successful `ObjectBoilerplate::Create` did for a literal flagged
null-prototype. -/
theorem ObjectBoilerplate.Create_null_prototype_ok {c : Env}
    {inner : State → Addr → Res Val} (hinner : InnerFrame c inner) {s s' : State}
    {d r : Addr} {flags : Int}
    (hnull : (Int.land flags c.kHasNullPrototype != 0) = true)
    (h : ObjectBoilerplate.Create c inner s d flags = .ok r s') :
    ∃ size entries props elems evs,
      s.heap[d]? = some (.BoilerplateDescription size entries) ∧
      r = s.heap.length ∧
      s'.heap[r]? = some (.JSObject slow_object_with_null_prototype_map props elems
        (!(Int.land flags c.kFastElements != 0)) (pretenureFor s) (some size)) ∧
      s'.log = s.log ++ .ObjectBoilerplate_Create d flags :: evs ∧
      ∀ e ∈ evs, BuilderEvent c (r + 1) e := by
  cases hd : s.heap[d]? with
  | none => simp [ObjectBoilerplate.Create, State.record, hd] at h
  | some o =>
    cases o with
    | BoilerplateDescription size entries =>
      rw [ObjectBoilerplate.Create_eq c inner s d flags size entries hd] at h
      have hmap : ObjectBoilerplate.Create.map c flags size =
          slow_object_with_null_prototype_map := by
        simp [ObjectBoilerplate.Create.map, hnull]
      cases hl : ObjectBoilerplate.Create.loop c inner s.heap.length d entries.length 0
          (ObjectBoilerplate.Create.start c s d flags size) with
      | ok u s1 =>
        rw [hl] at h
        simp only [Res.bind, hnull, Bool.not_true, Bool.and_false, Bool.false_eq_true,
          if_false, Res.ok.injEq] at h
        obtain ⟨hr, hs'⟩ := h
        subst hr hs'
        have hb : (ObjectBoilerplate.Create.start c s d flags size).heap[s.heap.length]? =
            some (.JSObject slow_object_with_null_prototype_map [] []
              (!(Int.land flags c.kFastElements != 0)) (pretenureFor s) (some size)) := by
          simp [ObjectBoilerplate.Create.start, hmap, slow_object_with_null_prototype_map]
        obtain ⟨hf, props', elems', hb'⟩ :=
          ObjectBoilerplate.Create.loop_objectFrame hinner _ _ _ _ _ _ _ _ _ _ _ _ hb hl
        obtain ⟨-, -, -, -, evs, hlog, hevs⟩ := hf
        refine ⟨size, entries, props', elems', evs, rfl, rfl, hb', ?_, ?_⟩
        · rw [hlog]
          simp [ObjectBoilerplate.Create.start, hnull]
        · intro e he
          have := hevs e he
          simpa [ObjectBoilerplate.Create.start] using this
      | exception s1 => rw [hl] at h; simp [Res.bind] at h
      | fatal s1 => rw [hl] at h; simp [Res.bind] at h
      | undefined s1 => rw [hl] at h; simp [Res.bind] at h
      | outOfFuel => rw [hl] at h; simp [Res.bind] at h
    | _ => simp [ObjectBoilerplate.Create, State.record, hd] at h

/-- C8: for a literal flagged null-prototype, `ObjectBoilerplate::Create` returns on
every well-formed description, and whenever it returns, whatever the declared property
count, the boilerplate has the fixed null-prototype dictionary shape, whose prototype
is null; among the calls made after entering the builder, the shape cache is consulted
only on behalf of (nested) literals that are not flagged null-prototype, never with
the flags of this literal, and the slow-to-fast migration is not applied to the
boilerplate. -/
theorem null_prototype_forces_dictionary_shape (c : Env) (fuel : Nat) (s : State)
    (d : Addr) (flags : Int) (hnull : Int.land flags c.kHasNullPrototype ≠ 0) :
    (WellFormedObjectDescription c s (WellFormedValue c s fuel) d = true →
      ∃ r s', ObjectBoilerplate.Create c (InnerCreateBoilerplate c fuel) s d flags =
        .ok r s') ∧
    ∀ r s', ObjectBoilerplate.Create c (InnerCreateBoilerplate c fuel) s d flags = .ok r s' →
      ∃ size entries props elems norm pretenure capacity evs,
        s.heap[d]? = some (.BoilerplateDescription size entries) ∧
        s'.heap[r]? = some (.JSObject slow_object_with_null_prototype_map props elems norm
          pretenure capacity) ∧
        slow_object_with_null_prototype_map.prototype = none ∧
        slow_object_with_null_prototype_map.is_dictionary_map = true ∧
        s'.log = s.log ++ .ObjectBoilerplate_Create d flags :: evs ∧
        (∀ f n, Event.ObjectLiteralMapFromCache f n ∈ evs →
          Int.land f c.kHasNullPrototype = 0) ∧
        (∀ n, Event.ObjectLiteralMapFromCache flags n ∉ evs) ∧
        Event.MigrateSlowToFast r ∉ evs := by
  constructor
  · intro hwf
    obtain ⟨size, entries, values, s', -, h, -⟩ := ObjectBoilerplate.Create_objectTotal
      (InnerCreateBoilerplate_frame c fuel) (InnerCreateBoilerplate_total c fuel) s d flags hwf
    exact ⟨_, _, h⟩
  · intro r s' h
    have hnull' : (Int.land flags c.kHasNullPrototype != 0) = true := by simpa using hnull
    obtain ⟨size, entries, props, elems, evs, hd, -, hb, hlog, hevs⟩ :=
      ObjectBoilerplate.Create_null_prototype_ok (InnerCreateBoilerplate_frame c fuel) hnull' h
    refine ⟨size, entries, props, elems, _, _, _, evs, hd, hb, rfl, rfl, hlog, ?_, ?_, ?_⟩
    · intro f n hmem
      exact hevs _ hmem
    · intro n hmem
      exact hnull (hevs _ hmem)
    · intro hmem
      have := hevs _ hmem
      simp [BuilderEvent] at this

theorem null_prototype_forces_dictionary_shape_witness :
    Int.land 9 sampleEnv.kHasNullPrototype ≠ 0 ∧
    WellFormedObjectDescription sampleEnv sampleState
      (WellFormedValue sampleEnv sampleState 2) 5 = true ∧
    ∃ r s', ObjectBoilerplate.Create sampleEnv (InnerCreateBoilerplate sampleEnv 2)
      sampleState 5 9 = .ok r s' ∧
      ∃ size entries props elems norm pretenure capacity evs,
        sampleState.heap[5]? = some (.BoilerplateDescription size entries) ∧
        s'.heap[r]? = some (.JSObject slow_object_with_null_prototype_map props elems norm
          pretenure capacity) ∧
        slow_object_with_null_prototype_map.prototype = none ∧
        slow_object_with_null_prototype_map.is_dictionary_map = true ∧
        s'.log = sampleState.log ++ .ObjectBoilerplate_Create 5 9 :: evs ∧
        (∀ f n, Event.ObjectLiteralMapFromCache f n ∈ evs →
          Int.land f sampleEnv.kHasNullPrototype = 0) ∧
        (∀ n, Event.ObjectLiteralMapFromCache 9 n ∉ evs) ∧
        Event.MigrateSlowToFast r ∉ evs :=
  ⟨by decide, by decide, _, _, rfl,
    (null_prototype_forces_dictionary_shape sampleEnv 2 sampleState 5 9 (by decide)).2 _ _
      rfl⟩

theorem BuiltFrom.of_replaced {c : Env} {fuel : Nat} {s : State} {b : Addr} {s' : State}
    {v v' : Val} (h : Replaced (InnerCreateBoilerplate c fuel) s b s' v v') :
    BuiltFrom c fuel s b s' v v' := by
  simp only [Replaced] at h
  simp only [BuiltFrom]
  split
  · rename_i hm
    rw [if_pos hm] at h
    obtain ⟨s1, s2, hext, hblt, hin, hkeep⟩ := h
    have hfr := (InnerCreateBoilerplate_frame c fuel _ _ _ _ hin).2
    cases v with
    | ref a =>
      have halt : a < s.heap.length := by
        simp only [IsFixedArray] at hm
        split at hm
        · rename_i heq
          exact lt_length_of_getElem? heq
        · cases hm
      cases fuel with
      | zero => simp [InnerCreateBoilerplate] at hin
      | succ fuel =>
        simp only [Val.addr, InnerCreateBoilerplate, hext.getElements halt,
          hext.getLiteralTypeFlags halt] at hin
        split at hin
        · rename_i elements flags he hf
          simp only [Val.addr, Nat.add_sub_cancel]
          split at hin
          · rename_i hflag
            cases hc : ArrayBoilerplate.Create c (InnerCreateBoilerplate c fuel) s1 elements
                flags with
            | ok r s3 =>
              rw [hc] at hin
              simp only [Res.bind, Res.ok.injEq] at hin
              obtain ⟨hv, hs⟩ := hin
              subst hv hs
              obtain ⟨r0, h0, h1, h2⟩ := hfr
              cases h0
              exact ⟨elements, flags, r, s1, s3, he, hf, rfl, hext,
                by rw [if_pos hflag]; exact hc, h2,
                Nat.ne_of_gt (lt_of_lt_of_le hblt h1), hkeep⟩
            | exception s3 => rw [hc] at hin; simp [Res.bind] at hin
            | fatal s3 => rw [hc] at hin; simp [Res.bind] at hin
            | undefined s3 => rw [hc] at hin; simp [Res.bind] at hin
            | outOfFuel => rw [hc] at hin; simp [Res.bind] at hin
          · rename_i hflag
            cases hc : ObjectBoilerplate.Create c (InnerCreateBoilerplate c fuel) s1 elements
                flags with
            | ok r s3 =>
              rw [hc] at hin
              simp only [Res.bind, Res.ok.injEq] at hin
              obtain ⟨hv, hs⟩ := hin
              subst hv hs
              obtain ⟨r0, h0, h1, h2⟩ := hfr
              cases h0
              exact ⟨elements, flags, r, s1, s3, he, hf, rfl, hext,
                by rw [if_neg hflag]; exact hc, h2,
                Nat.ne_of_gt (lt_of_lt_of_le hblt h1), hkeep⟩
            | exception s3 => rw [hc] at hin; simp [Res.bind] at hin
            | fatal s3 => rw [hc] at hin; simp [Res.bind] at hin
            | undefined s3 => rw [hc] at hin; simp [Res.bind] at hin
            | outOfFuel => rw [hc] at hin; simp [Res.bind] at hin
        · cases hin
    | _ => simp [IsFixedArray] at hm
  · rename_i hm
    rw [if_neg hm] at h
    exact h

theorem forall₂_getElem? {α β : Type} {R : α → β → Prop} {l₁ : List α} {l₂ : List β}
    (h : List.Forall₂ R l₁ l₂) :
    ∀ (i : Nat) (x : α), l₁[i]? = some x → ∃ y, l₂[i]? = some y ∧ R x y := by
  induction h with
  | nil => intro i x hx; simp at hx
  | cons hr _ ih =>
    intro i x hx
    cases i with
    | zero =>
      simp only [List.getElem?_cons_zero, Option.some.injEq] at hx
      subst hx
      exact ⟨_, by simp, hr⟩
    | succ i =>
      simp only [List.getElem?_cons_succ] at hx ⊢
      exact ih i x hx

/-- C9: on a well-formed object literal description (a finite tree of depth at most
`fuel`), `ObjectBoilerplate::Create` returns a newly allocated boilerplate, whose
named properties and indexed elements are those obtained by installing the pairs
(key, value') in declaration order, where value' is the boilerplate built for the
value when the value is a nested-literal marker (by the array builder when its kind
flag is the array-literal flag, by the object builder otherwise; that nested
boilerplate is in the final heap exactly as its builder left it) and the value itself
otherwise; a key that is an array index is installed as an indexed element, with the
uninitialized placeholder replaced by Smi zero, every other key as a named property
with the value unchanged; and a later pair overrides an earlier pair with the same
key. -/
theorem object_boilerplate_installs_pairs_in_order (c : Env) (fuel : Nat) (s : State) (d : Addr)
    (flags : Int)
    (hwf : WellFormedObjectDescription c s (WellFormedValue c s fuel) d = true) :
    ∃ size entries values s' map properties elements normalized pretenure capacity,
      s.heap[d]? = some (.BoilerplateDescription size entries) ∧
      ObjectBoilerplate.Create c (InnerCreateBoilerplate c fuel) s d flags =
        .ok s.heap.length s' ∧
      values.length = entries.length ∧
      (∀ (i : Nat) (key value : Val), entries[i]? = some (key, value) →
        ∃ value', values[i]? = some value' ∧
          BuiltFrom c fuel s s.heap.length s' value value') ∧
      s'.heap[s.heap.length]? =
        some (.JSObject map properties elements normalized pretenure capacity) ∧
      (properties, elements) =
        Spec.installPairs c ([], []) ((entries.map Prod.fst).zip values) ∧
      (∀ name, c.ToArrayIndex name = none →
        properties.lookup name = ((entries.map Prod.fst).zip values).reverse.lookup name) ∧
      (∀ index,
        elements.lookup index =
          (Spec.indexedPairs c ((entries.map Prod.fst).zip values)).reverse.lookup index) := by
  obtain ⟨size, entries, values, s', hd, hc, hall, hres⟩ := ObjectBoilerplate.Create_objectTotal
    (InnerCreateBoilerplate_frame c fuel) (InnerCreateBoilerplate_total c fuel) s d flags hwf
  refine ⟨size, entries, values, s', _, _, _, _, _, _, hd, hc, ?_, ?_, hres, rfl, ?_, ?_⟩
  · simpa using hall.length_eq.symm
  · intro i key value hi
    have hi' : (entries.map Prod.snd)[i]? = some value := by
      simp [List.getElem?_map, hi]
    obtain ⟨v', hv', hrep⟩ := forall₂_getElem? hall i value hi'
    exact ⟨v', hv', BuiltFrom.of_replaced hrep⟩
  · intro name hname
    exact Spec.installPairs_lookup_named c _ name hname
  · intro index
    exact Spec.installPairs_lookup_indexed c _ index

theorem object_boilerplate_installs_pairs_in_order_witness :
    WellFormedObjectDescription sampleEnv sampleState
      (WellFormedValue sampleEnv sampleState 2) 5 = true ∧
    ∃ size entries values s' map properties elements normalized pretenure capacity,
      sampleState.heap[5]? = some (.BoilerplateDescription size entries) ∧
      ObjectBoilerplate.Create sampleEnv (InnerCreateBoilerplate sampleEnv 2) sampleState 5 0 =
        .ok sampleState.heap.length s' ∧
      values.length = entries.length ∧
      (∀ (i : Nat) (key value : Val), entries[i]? = some (key, value) →
        ∃ value', values[i]? = some value' ∧
          BuiltFrom sampleEnv 2 sampleState sampleState.heap.length s' value value') ∧
      s'.heap[sampleState.heap.length]? =
        some (.JSObject map properties elements normalized pretenure capacity) ∧
      (properties, elements) =
        Spec.installPairs sampleEnv ([], []) ((entries.map Prod.fst).zip values) ∧
      (∀ name, sampleEnv.ToArrayIndex name = none →
        properties.lookup name = ((entries.map Prod.fst).zip values).reverse.lookup name) ∧
      (∀ index,
        elements.lookup index =
          (Spec.indexedPairs sampleEnv
            ((entries.map Prod.fst).zip values)).reverse.lookup index) :=
  ⟨by decide, object_boilerplate_installs_pairs_in_order sampleEnv 2 sampleState 5 0 (by decide)⟩

/-- C10: on a description of small-int/object kind whose backing storage is not
copy-on-write and holds well-formed values (nesting depth at most `fuel`),
`ArrayBoilerplate::Create` returns an array that carries the element kind of the
description and the length of its backing sequence; the backing storage of the array
is a newly allocated array of that length whose element `i` is the boilerplate built
for element `i` of the description when that element is a nested-literal marker (in
the final heap exactly as its builder left it), and element `i` itself otherwise; the description and its backing sequence are
unchanged, like every object that existed before. -/
theorem array_boilerplate_copies_elementwise (c : Env) (fuel : Nat) (s : State) (d : Addr)
    (flags : Int) (kind : ElementsKind) (constant_values : Addr) (values : List Val)
    (hd : s.heap[d]? = some (.ConstantElementsPair kind constant_values))
    (hkind : IsFastSmiOrObjectElementsKind kind = true)
    (hvalues : s.heap[constant_values]? = some (.FixedArray false values))
    (hwf : ∀ v ∈ values, WellFormedValue c s fuel v = true) :
    ∃ r s' elements values' pretenure,
      ArrayBoilerplate.Create c (InnerCreateBoilerplate c fuel) s d flags = .ok r s' ∧
      s'.heap[r]? = some (.JSArray elements kind values.length pretenure) ∧
      s.heap.length ≤ elements ∧
      s'.heap[elements]? = some (.FixedArray false values') ∧
      values'.length = values.length ∧
      (∀ (i : Nat) (v : Val), values[i]? = some v →
        ∃ v', values'[i]? = some v' ∧ BuiltFrom c fuel s elements s' v v') ∧
      s'.heap[constant_values]? = some (.FixedArray false values) ∧
      s'.heap[d]? = some (.ConstantElementsPair kind constant_values) ∧
      (∀ a, a < s.heap.length → s'.heap[a]? = s.heap[a]?) := by
  have hk : IsFastDoubleElementsKind kind = false := by
    cases kind <;> simp_all [IsFastDoubleElementsKind, IsFastSmiOrObjectElementsKind]
  obtain ⟨r, s', values', hc, hr, hcopy, hlen, hall, hext⟩ :=
    ArrayBoilerplate.Create_copy (InnerCreateBoilerplate_frame c fuel)
      (InnerCreateBoilerplate_total c fuel) s d flags kind constant_values values hd hk
      (fun _ => hkind) hvalues hwf
  refine ⟨r, s', s.heap.length, values', _, hc, hr, le_refl _, hcopy, hlen, ?_,
    hext.getElem? hvalues, hext.getElem? hd, hext.2⟩
  intro i v hv
  obtain ⟨v', hv', hrep⟩ := hall i v hv
  exact ⟨v', hv', BuiltFrom.of_replaced hrep⟩

theorem array_boilerplate_copies_elementwise_witness :
    sampleState.heap[4]? = some (.ConstantElementsPair .FAST_ELEMENTS 3) ∧
    IsFastSmiOrObjectElementsKind .FAST_ELEMENTS = true ∧
    sampleState.heap[3]? = some (.FixedArray false [.smi 1, .ref 2, .smi 3]) ∧
    (∀ v ∈ [Val.smi 1, .ref 2, .smi 3], WellFormedValue sampleEnv sampleState 2 v = true) ∧
    ∃ r s' elements values' pretenure,
      ArrayBoilerplate.Create sampleEnv (InnerCreateBoilerplate sampleEnv 2) sampleState 4 0 =
        .ok r s' ∧
      s'.heap[r]? = some (.JSArray elements .FAST_ELEMENTS
        [Val.smi 1, .ref 2, .smi 3].length pretenure) ∧
      sampleState.heap.length ≤ elements ∧
      s'.heap[elements]? = some (.FixedArray false values') ∧
      values'.length = [Val.smi 1, .ref 2, .smi 3].length ∧
      (∀ (i : Nat) (v : Val), [Val.smi 1, .ref 2, .smi 3][i]? = some v →
        ∃ v', values'[i]? = some v' ∧ BuiltFrom sampleEnv 2 sampleState elements s' v v') ∧
      s'.heap[3]? = some (.FixedArray false [.smi 1, .ref 2, .smi 3]) ∧
      s'.heap[4]? = some (.ConstantElementsPair .FAST_ELEMENTS 3) ∧
      (∀ a, a < sampleState.heap.length → s'.heap[a]? = sampleState.heap[a]?) :=
  ⟨by decide, by decide, by decide, by decide,
    array_boilerplate_copies_elementwise sampleEnv 2 sampleState 4 0 .FAST_ELEMENTS 3
      [.smi 1, .ref 2, .smi 3] (by decide) (by decide) (by decide) (by decide)⟩

theorem Extends.by_record (s : State) (e : Event) : Extends s (s.record e) :=
  ⟨le_refl _, fun _ _ => rfl⟩

theorem Boilerplate.Create_anyTotal (B : Boilerplate) (c : Env) (fuel : Nat) (s : State)
    (e : Event) (d : Addr) (flags : Int)
    (hwf : B.WellFormedDescription c s fuel d = true) :
    ∃ r s', B.Create c (InnerCreateBoilerplate c fuel) (s.record e) d flags = .ok r s' := by
  have hext := Extends.by_record s e
  cases B with
  | ObjectBoilerplate =>
    have hwf' := WellFormedObjectDescription.extends_object hext (WellFormedValue.extends_value hext fuel) hwf
    obtain ⟨_, _, _, s', -, h, -⟩ := ObjectBoilerplate.Create_objectTotal
      (InnerCreateBoilerplate_frame c fuel) (InnerCreateBoilerplate_total c fuel) _ d flags hwf'
    exact ⟨_, _, h⟩
  | ArrayBoilerplate =>
    have hwf' := WellFormedArrayDescription.extends_array hext (WellFormedValue.extends_value hext fuel) hwf
    exact ArrayBoilerplate.Create_arrayTotal
      (InnerCreateBoilerplate_frame c fuel) (InnerCreateBoilerplate_total c fuel) _ d flags hwf'

theorem JSObject.DeepWalk_ne_outOfFuel (c : Env) (context : WalkContext) (s : State)
    (b : Addr) (f : Unit → State → Res Val) (hf : ∀ u s, f u s ≠ .outOfFuel) :
    (JSObject.DeepWalk c context s b).bind f ≠ .outOfFuel := by
  simp only [JSObject.DeepWalk]
  split
  · exact hf _ _
  · simp [Res.bind]

theorem CreateLiteral.copy_ne_outOfFuel (c : Env) (s : State) (site b : Addr) (flags : Int) :
    CreateLiteral.copy c s site b flags ≠ .outOfFuel := by
  simp only [CreateLiteral.copy, JSObject.DeepCopy]
  split <;> simp

/-- The function `CreateLiteral` runs to completion on every well-formed description whose nesting
depth is at most the recursion bound: the bound of the embedding is never reached. -/
theorem CreateLiteral_ne_outOfFuel (B : Boilerplate) (c : Env) (fuel : Nat) (s : State)
    (literals_index : Int) (description : Addr) (flags : Int)
    (hwf : B.WellFormedDescription c s fuel description = true) :
    CreateLiteral B c fuel s literals_index description flags ≠ .outOfFuel := by
  obtain ⟨r, s1, hb⟩ := Boilerplate.Create_anyTotal B c fuel s
    (.FeedbackVector_Get (c.ToSlot literals_index)) description flags hwf
  simp only [CreateLiteral, FeedbackVector.Get]
  split
  · simp
  · split
    · simp only [Res.bind]
      split
      · split
        · split
          · exact CreateLiteral.copy_ne_outOfFuel _ _ _ _ _
          · simp
        · simp
      · rw [hb]
        simp only [Res.bind]
        split
        · split
          · exact JSObject.DeepWalk_ne_outOfFuel _ _ _ _ _ (fun _ _ => by simp)
          · simp
        · exact JSObject.DeepWalk_ne_outOfFuel _ _ _ _ _
            (fun _ _ => CreateLiteral.copy_ne_outOfFuel _ _ _ _ _)
    · simp [Res.bind]

end internal
end v8
